import Mathlib

/-!
Verification development for the EscalatePlumbing repository.

This file gives a shallow embedding, in Lean 4, of the core data model and
algorithms of the repository (escalate_plumber/schema.py,
escalate_plumber/parser.py, plumbing/quality_control/verify_convexhull.py)
and proves properties of the embedded definitions.

Modelling conventions:
* Python floats are modelled by `ℚ` (exact rational arithmetic); the float
  value NaN, which several raw columns can carry, is modelled by the `Value.na`
  constructor and by NaN-aware operations on `Value`.
* Python dicts (which preserve insertion order, with `d[k] = v` keeping the
  original position of an existing key) are modelled by association lists
  `List (String × α)` together with `dictGet?` / `dictInsert` / `dictAdd`.
* Python exceptions are modelled with `Except`: `Fatal` collects the uncaught
  exception kinds (KeyError, ValueError, AssertionError, TypeError,
  ZeroDivisionError, IndexError) and `RTRErr` distinguishes the repository's
  own `ReactionParserError` (caught by `collect_reactions`) from fatal errors.
* String helpers are defined over `List Char` so that all definitions reduce
  in the kernel; each helper documents the Python string method it models.
-/

set_option maxHeartbeats 1000000

unseal Rat.add Rat.mul Rat.inv Rat.sub Rat.ofScientific

/-- The uncaught Python exception kinds that appear in the embedded code. -/
inductive Fatal where
  | keyError (k : String)
  | valueError (msg : String)
  | assertionError (msg : String)
  | typeError (msg : String)
  | zeroDivisionError
  | indexError
  deriving DecidableEq, Repr

/-- Result alternative of `record_to_reaction`: either the repository's own
`ReactionParserError` (caught and logged by `collect_reactions`) or a fatal
(uncaught) Python exception. -/
inductive RTRErr where
  | fatal (e : Fatal)
  | parser (msg : String)
  deriving DecidableEq, Repr

instance [DecidableEq e] [DecidableEq a] : DecidableEq (Except e a)
  | .error x, .error y =>
      if h : x = y then .isTrue (by rw [h]) else .isFalse (by simp [h])
  | .error _, .ok _ => .isFalse (by simp)
  | .ok _, .error _ => .isFalse (by simp)
  | .ok x, .ok y =>
      if h : x = y then .isTrue (by rw [h]) else .isFalse (by simp [h])

/-- A raw cell value in a pandas record: a float (rational), a string, or NaN. -/
inductive Value where
  | num (q : ℚ)
  | str (s : String)
  | na
  deriving DecidableEq, Repr

/-- Models `pd.isna`: true exactly on NaN/None cells. -/
def Value.isna : Value → Bool
  | .na => true
  | _ => false

/-- Models Python f-string rendering of a raw value. -/
def Value.render : Value → String
  | .num q => toString q
  | .str s => s
  | .na => "nan"

/-- A raw record: an ordered association of column name to raw value. -/
abbrev Record : Type := List (String × Value)

/-- Dict lookup (`d[k]` when present, `d.get(k)` otherwise). -/
def dictGet? (d : List (String × α)) (k : String) : Option α :=
  (d.find? (fun p => p.1 == k)).map (fun p => p.2)

/-- Models Python `d[k] = v`: replaces in place when the key exists,
appends otherwise (dicts preserve insertion order). -/
def dictInsert (d : List (String × α)) (k : String) (v : α) : List (String × α) :=
  if d.any (fun p => p.1 == k) then
    d.map (fun p => if p.1 == k then (k, v) else p)
  else d ++ [(k, v)]

def dictKeys (d : List (String × α)) : List String := d.map (fun p => p.1)

/-- Record lookup, `record[k]`, as an `Option`. -/
def recGet? (r : Record) (k : String) : Option Value := dictGet? r k

/-! ### String helpers (kernel-friendly, over `List Char`) -/

/-- Models Python `s.startswith(pre)`. -/
def strStarts (s pre : String) : Bool := List.isPrefixOf pre.toList s.toList

/-- Models Python `s.endswith(suf)`. -/
def strEnds (s suf : String) : Bool := List.isSuffixOf suf.toList s.toList

/-- Models Python `s.lower()` (ASCII suffices for the column names at hand). -/
def strLower (s : String) : String := String.mk (s.toList.map Char.toLower)

/-- Models Python `s.upper()`. -/
def strUpper (s : String) : String := String.mk (s.toList.map Char.toUpper)

/-- Models Python `pat in s` (substring containment): `pat` occurs at some
offset of `s`. -/
def strContainsSub (s pat : String) : Bool :=
  (List.range (s.toList.length + 1)).any
    (fun i => List.isPrefixOf pat.toList (s.toList.drop i))

/-- Models Python `s.count("-")`. -/
def countDash (s : String) : Nat := (s.toList.filter (fun c => c == '-')).length

/-! ### Domain model: Material, ReagentMaterial, Reagent (schema.py) -/

/-- `Material` (schema.py): a reference chemical.  The unused property bag is
omitted; all other constructor fields are kept. -/
structure Material where
  inchikey : String
  mw : ℚ
  category : String
  name : String
  density : ℚ
  inchi : String
  deriving DecidableEq, Repr

/-- `ReagentMaterial` (schema.py): one constituent of a reagent.  The
constructor's amount-unit assertion is modelled separately where the parser
constructs values (`mkReagentMaterial`). -/
structure ReagentMaterial where
  material : Material
  amount : ℚ
  amount_unit : String
  deriving DecidableEq, Repr

/-- Float division, raising `ZeroDivisionError` on a zero divisor, as in
Python. -/
def divE (x y : ℚ) : Except Fatal ℚ :=
  if y = 0 then .error .zeroDivisionError else .ok (x / y)

/-- `ReagentMaterial.volume` property (schema.py lines 99-107, in liter): a
gram-unit constituent divides by the material density (`ZeroDivisionError`
when the density is 0), a milliliter-unit constituent needs no division, and
an unknown unit raises `ValueError`. -/
def ReagentMaterial.volumeE (rm : ReagentMaterial) : Except Fatal ℚ :=
  if strLower rm.amount_unit == "gram" then
    divE (1e-3 * rm.amount) rm.material.density
  else if strLower rm.amount_unit == "milliliter" then .ok (1e-3 * rm.amount)
  else .error (.valueError ("unknown amount unit: " ++ rm.amount_unit))

/-- `ReagentMaterial.mol` property (schema.py lines 109-117): both unit
branches divide the gram amount by the molecular weight (`ZeroDivisionError`
when `mw` is 0); an unknown unit raises `ValueError`. -/
def ReagentMaterial.molE (rm : ReagentMaterial) : Except Fatal ℚ :=
  if strLower rm.amount_unit == "gram" then
    divE rm.amount rm.material.mw
  else if strLower rm.amount_unit == "milliliter" then
    divE (rm.material.density * rm.amount) rm.material.mw
  else .error (.valueError ("unknown amount unit: " ++ rm.amount_unit))

/-- `Reagent` (schema.py).  Note the constructor's keyword parameters: there is
no `volume_prepare` parameter.  `volume_sum_arg` models the stored
`_volume_sum` and `molarity_table_arg` the stored `_molarity_table`; both are
shadowed by the computed properties below and never read back. -/
structure Reagent where
  reagent_material_table : List (Nat × ReagentMaterial)
  volume_added : ℚ
  volume_sum_arg : Option ℚ := none
  molarity_table_arg : Option (List (String × ℚ)) := none
  deriving DecidableEq, Repr

/-- The keyword parameters accepted by `Reagent.__init__` (schema.py line
125): calling the constructor with any other keyword raises `TypeError`. -/
def reagent_init_params : List String :=
  ["reagent_material_table", "volume_added", "volume_sum", "molarity_table"]

/-- The keyword arguments `get_reagent_table` (parser.py line 128) passes to
the `Reagent` constructor. -/
def get_reagent_table_call_kwargs : List String :=
  ["reagent_material_table", "volume_added", "volume_prepare"]

/-- A Python call with keyword arguments succeeds only when every supplied
keyword is a declared parameter. -/
def callAccepts (params kwargs : List String) : Bool :=
  kwargs.all (fun k => params.contains k)

/-- Loop of the `Reagent.volume_sum` property (schema.py lines 146-152): sums
the constituent volumes, propagating their errors. -/
def volumeSumGo : List (Nat × ReagentMaterial) → ℚ → Except Fatal ℚ
  | [], acc => .ok acc
  | p :: rest, acc => do
      let v ← p.2.volumeE
      volumeSumGo rest (acc + v)

/-- `Reagent.volume_sum` property: the sum of constituent volumes. -/
def Reagent.volume_sumE (r : Reagent) : Except Fatal ℚ :=
  volumeSumGo r.reagent_material_table 0

/-- Loop body of the `Reagent.molarity_table` property (schema.py lines
154-159): `d[c.material.inchikey] = c.mol / self.volume_sum` for each
constituent, inserted in table order; the source re-evaluates the
`volume_sum` property in every iteration, each time with the same result. -/
def molarityTableGo (r : Reagent) :
    List (Nat × ReagentMaterial) → List (String × ℚ) → Except Fatal (List (String × ℚ))
  | [], d => .ok d
  | p :: rest, d => do
      let mol ← p.2.molE
      let vs ← r.volume_sumE
      let m ← divE mol vs
      molarityTableGo r rest (dictInsert d p.2.material.inchikey m)

/-- `Reagent.molarity_table` property (schema.py lines 154-159).  It does not
consult any preparation volume (the class stores none). -/
def Reagent.molarity_tableE (r : Reagent) : Except Fatal (List (String × ℚ)) :=
  molarityTableGo r r.reagent_material_table []

/-! ### Column classifier (parser.py) -/

def target_column : String := "_out_crystalscore"

def COL_TARGET : String := "target"
def COL_NAME : String := "name"
def COL_USELESS : String := "useless"
def COL_FEATURE : String := "feature"
def COL_CALCULATE : String := "calculate"
def COL_REAGENT : String := "reagent"
def COL_REACTION : String := "reaction"
def COL_RAW_MMOL_INCHI_KEY : String := "raw_mmol_inchi_key"
def COL_RAW_MOLARITY_INCHI_KEY : String := "raw_molarity_inchi_key"
def COL_RAW_INCHIKEY_CATEGORY : String := "raw_inchikey_type"
def COL_RAW_OTHER : String := "raw_other"

def useless_columns : List String :=
  ["_raw_challengeproblem", "_raw_genver", "_raw_user_generated_experimentname",
   "_raw_batch_count", "_raw_datecreated", "_raw_jobserial", "dataset",
   "_raw_lab", "_raw_labwareid", "_raw_operator", "_raw_modelname",
   "_raw_notes", "_raw_modelname", "_raw_vialsite", "_raw_timecreated_utc",
   "_raw_participantname"]

/-- `is_column_useless` (parser.py lines 208-236). -/
def is_column_useless (cname : String) : Bool :=
  if useless_columns.contains cname then true
  else if strContainsSub cname "nominal_amount" then true
  else if strEnds cname "_date" then true
  else false

/-- `classify_column` (parser.py lines 154-189), faithful to the priority
order of the source.  A name matching no pattern raises `ValueError`; note the
catch-all `startswith("_raw")` branch returning `COL_RAW_OTHER` sits before
the error. -/
def classify_column (cname : String) : Except Fatal String :=
  if cname == target_column then .ok COL_TARGET
  else if cname == "name" then .ok COL_NAME
  else if is_column_useless cname then .ok COL_USELESS
  else if strStarts cname "_feat" then .ok COL_FEATURE
  else if strStarts cname "_calc" then .ok COL_CALCULATE
  else if strStarts cname "_raw_reagent" then .ok COL_REAGENT
  else if strStarts cname "_rxn" && !(strEnds cname "-inchikey") then .ok COL_REACTION
  else if strStarts cname "_raw_mmol" && countDash cname == 2 then .ok COL_RAW_MMOL_INCHI_KEY
  else if strStarts cname "_raw_molarity" && countDash cname == 2 then .ok COL_RAW_MOLARITY_INCHI_KEY
  else if (strStarts cname "_raw" && strEnds (strLower cname) "inchikey")
      || cname == "_rxn_organic-inchikey" then .ok COL_RAW_INCHIKEY_CATEGORY
  else if strStarts cname "_raw" then .ok COL_RAW_OTHER
  else .error (.valueError ("unknown column name: " ++ cname))

def cex_mat_org : Material :=
  { inchikey := "AAAAAAAAAAAAAA-UHFFFAOYSA-N", mw := 200, category := "organic",
    name := "OrgChem", density := 1, inchi := "InChI=1S/org" }

def cex_reagent3 : Reagent :=
  { reagent_material_table := [(0, { material := cex_mat_org, amount := 1/50, amount_unit := "gram" })],
    volume_added := 1/2500 }

/-! ### Grouping engine: `group_reactions` (schema.py lines 490-497) -/

/-- Stable insertion by key: the new element goes before the first element
whose key is not smaller, so equal-key elements keep their original relative
order (the element being inserted came earlier in the input). -/
def insertByKey [LinearOrder κ] (key : α → κ) (a : α) : List α → List α
  | [] => [a]
  | b :: l => if key a ≤ key b then a :: b :: l else b :: insertByKey key a l

/-- Models Python `sorted(xs, key=...)`.  `sorted` is a stable sort, and any
two stable sorts of the same list by the same key agree, so stable insertion
sort is a faithful model. -/
def sortByKey [LinearOrder κ] (key : α → κ) : List α → List α
  | [] => []
  | a :: l => insertByKey key a (sortByKey key l)

/-- Models `itertools.groupby`: maximal runs of equal key, in order. -/
def groupRuns [DecidableEq κ] (key : α → κ) : List α → List (κ × List α)
  | [] => []
  | a :: l =>
    match groupRuns key l with
    | [] => [(key a, [a])]
    | (k, g) :: rest =>
      if key a = k then (key a, a :: g) :: rest
      else (key a, [a]) :: (k, g) :: rest

/-- `group_reactions` (schema.py lines 490-497): sort by the key function,
then partition into runs of equal key; the result is the insertion-ordered
dict from each distinct key to its members. -/
def group_reactions [LinearOrder κ] (key : α → κ) (l : List α) : List (κ × List α) :=
  groupRuns key (sortByKey key l)

/-! ### Dedup keeping first occurrences (pandas `drop_duplicates`) -/

/-- Auxiliary traversal for first-occurrence dedup with an accumulator of
already seen elements. -/
def ddfAux [DecidableEq β] (seen : List β) : List β → List β
  | [] => []
  | a :: l => if a ∈ seen then ddfAux seen l else a :: ddfAux (a :: seen) l

/-- Models `df.drop_duplicates()`: removes every row equal to an earlier row,
keeping first occurrences in order. -/
def dedupKeepFirst [DecidableEq β] (l : List β) : List β := ddfAux [] l

/-! ### `np.allclose` with its default tolerances -/

/-- Elementwise closeness: `|a - b| <= atol + rtol * |b|` with numpy defaults
`atol = 1e-8`, `rtol = 1e-5`. -/
def qclose (a b : ℚ) : Bool := decide (|a - b| ≤ 1e-8 + 1e-5 * |b|)

def allcloseRow (r1 r2 : List ℚ) : Bool := (r1.zip r2).all (fun p => qclose p.1 p.2)

def allcloseMat (m1 m2 : List (List ℚ)) : Bool :=
  (m1.zip m2).all (fun p => allcloseRow p.1 p.2)

/-! ### Row reprojection (`pd.DataFrame.from_records` + `fillna(0)`) -/

/-- `combine` turns each row into a dict keyed by its own columns and rebuilds
it over the combined columns, filling missing axes with 0. -/
def reproj (oldCols : List String) (row : List ℚ) (newCols : List String) : List ℚ :=
  newCols.map (fun c => (dictGet? (oldCols.zip row) c).getD 0)

/-! ### SamplerConvexHull (schema.py lines 418-467) -/

/-- Sort key for materials: `Material.__lt__` compares inchikeys; comparing
the underlying character lists gives exactly Python's code-point
lexicographic string order. -/
def matKey (m : Material) : List Char := m.inchikey.toList

/-- `SamplerConvexHull`: `spaceArg` models the stored `_space` tuple; the
stored dataframe `_df` is modelled by its column labels `dfCols` and its
row-major values `dfRows`. -/
structure SamplerConvexHull where
  spaceArg : List Material
  dfCols : List String
  dfRows : List (List ℚ)
  deriving DecidableEq, Repr

/-- `space` property: the stored axes sorted by `Material.__lt__`, i.e. by
inchikey; its nonemptiness assert is tracked by `SamplerConvexHull.WF`. -/
def SamplerConvexHull.space (s : SamplerConvexHull) : List Material :=
  sortByKey matKey s.spaceArg

/-- `df` property: the assert `cols == self._df.columns` is tracked by
`SamplerConvexHull.WF`; `sort_values(by=cols)` sorts rows lexicographically
over the full column sequence. -/
def SamplerConvexHull.dfRowsSorted (s : SamplerConvexHull) : List (List ℚ) :=
  sortByKey (fun r => r) s.dfRows

/-- Well-formedness maintained by the class: the asserts of the `space` and
`df` properties (nonempty space, columns = sorted-space inchikeys), axis
distinctness, rectangular rows, and row dedup — all invariants that
`from_reagent_set` establishes and `combine` preserves. -/
def SamplerConvexHull.WF (s : SamplerConvexHull) : Prop :=
  s.spaceArg ≠ [] ∧
  (s.spaceArg.map (fun m => m.inchikey)).Nodup ∧
  s.dfCols = s.space.map (fun m => m.inchikey) ∧
  (∀ r ∈ s.dfRows, r.length = s.dfCols.length) ∧
  s.dfRows.Nodup

/-- `combine` (schema.py lines 423-435): union the axis spaces (`set` dedup,
then `sorted`), re-read both tables through the `df` property (rows sorted
canonically), rebuild every row-dict over the combined columns with missing
axes filled 0, concatenate, and drop duplicate rows.  Python's `set` dedups
Materials by object identity backed by inchikey hashing; under `InvCompat`
(one shared inventory) this coincides with structural equality used here. -/
def SamplerConvexHull.combine (s1 s2 : SamplerConvexHull) : SamplerConvexHull :=
  let newSpace := sortByKey matKey
    (dedupKeepFirst (s1.spaceArg ++ s2.spaceArg))
  let newCols := newSpace.map (fun m => m.inchikey)
  { spaceArg := newSpace, dfCols := newCols,
    dfRows := dedupKeepFirst
      (s1.dfRowsSorted.map (fun r => reproj s1.dfCols r newCols) ++
        s2.dfRowsSorted.map (fun r => reproj s2.dfCols r newCols)) }

/-- `__eq__` (schema.py lines 448-457): canonical axes compared pairwise,
then dataframe shape, then values via `np.allclose` on the sorted tables. -/
def SamplerConvexHull.eqHull (s1 s2 : SamplerConvexHull) : Bool :=
  if s1.space.length ≠ s2.space.length then false
  else if s1.space ≠ s2.space then false
  else if s1.dfRowsSorted.length ≠ s2.dfRowsSorted.length ∨
      s1.dfCols.length ≠ s2.dfCols.length then false
  else allcloseMat s1.dfRowsSorted s2.dfRowsSorted

/-- One shared inventory: equal inchikeys imply equal materials (plumbing.py
asserts the loaded inventory has no duplicates; every hull axis refers into
it). -/
def InvCompat (ms : List Material) : Prop :=
  ∀ m1 ∈ ms, ∀ m2 ∈ ms, m1.inchikey = m2.inchikey → m1 = m2

instance (s : SamplerConvexHull) : Decidable s.WF := by
  unfold SamplerConvexHull.WF
  infer_instance

instance (ms : List Material) : Decidable (InvCompat ms) := by
  unfold InvCompat
  infer_instance

def cex_mat_solv : Material :=
  { inchikey := "YMWUJEATGCHHMB-UHFFFAOYSA-N", mw := 100, category := "solvent",
    name := "DCM", density := 1, inchi := "InChI=1S/dcm" }

def cex_mat_inorg : Material :=
  { inchikey := "BBBBBBBBBBBBBB-UHFFFAOYSA-N", mw := 300, category := "inorganic",
    name := "InorgChem", density := 2, inchi := "InChI=1S/inorg" }

def cexHullA : SamplerConvexHull :=
  { spaceArg := [cex_mat_org],
    dfCols := ["AAAAAAAAAAAAAA-UHFFFAOYSA-N"],
    dfRows := [[5]] }

def cexHullB : SamplerConvexHull :=
  { spaceArg := [cex_mat_inorg],
    dfCols := ["BBBBBBBBBBBBBB-UHFFFAOYSA-N"],
    dfRows := [[2]] }

def cexHullC : SamplerConvexHull :=
  { spaceArg := [cex_mat_org, cex_mat_solv],
    dfCols := ["AAAAAAAAAAAAAA-UHFFFAOYSA-N", "YMWUJEATGCHHMB-UHFFFAOYSA-N"],
    dfRows := [[1, 3]] }

/-! ### Record parser (parser.py): values, reagent extraction, validations -/

/-- Python `v < q` on a raw cell: numbers compare, NaN compares `False`
(IEEE), a string raises `TypeError`. -/
def Value.ltNumE : Value → ℚ → Except Fatal Bool
  | .num x, q => .ok (decide (x < q))
  | .na, _ => .ok false
  | .str s, _ => .error (.typeError ("unorderable: " ++ s))

/-- Python `+` on raw cells as used for mmol accumulation: numbers add, NaN
absorbs, adding a string raises `TypeError`. -/
def Value.addV : Value → Value → Except Fatal Value
  | .num a, .num b => .ok (.num (a + b))
  | .na, .num _ => .ok .na
  | .num _, .na => .ok .na
  | .na, .na => .ok .na
  | .str s, _ => .error (.typeError s)
  | _, .str s => .error (.typeError s)

/-- `Material.select_from` (schema.py lines 53-58): linear scan by inchikey,
`ValueError` when absent.  A non-string raw value equals no inchikey. -/
def Material.select_from (inchikey : Value) (inventory : List Material) :
    Except Fatal Material :=
  match inventory.find? (fun m =>
      match inchikey with
      | .str s => m.inchikey == s
      | _ => false) with
  | some m => .ok m
  | none => .error (.valueError ("Material not found: " ++ inchikey.render))

/-- `ReagentMaterial.__init__` with its amount-unit assertion.  The embedding
stores rational amounts, so a non-numeric amount is rejected here with a
`TypeError` (in Python the same record dies fractionally later, in the
`Reagent(...)` keyword call, also with a `TypeError`); both paths are fatal
non-parser errors. -/
def mkReagentMaterial (material : Material) (amount : Value) (amount_unit : Value) :
    Except Fatal ReagentMaterial :=
  match amount_unit with
  | .str u =>
    if strLower u == "milliliter" || strLower u == "gram" then
      match amount with
      | .num a => .ok { material := material, amount := a, amount_unit := u }
      | v => .error (.typeError ("non-numeric amount: " ++ v.render))
    else .error (.assertionError ("unconventional amount unit: " ++ u))
  | v => .error (.assertionError ("unconventional amount unit: " ++ v.render))

/-- Generic ordered-dict insert for `Nat` keys (reagent/constituent slots). -/
def dictInsertNat (d : List (Nat × α)) (k : Nat) (v : α) : List (Nat × α) :=
  if d.any (fun p => p.1 == k) then
    d.map (fun p => if p.1 == k then (k, v) else p)
  else d ++ [(k, v)]

/-- Inner constituent loop of `get_reagent_table` (parser.py lines 98-119):
missing or NaN fields skip the constituent (`try`/`except` over `KeyError`
and `AssertionError`); the `ReagentMaterial` construction sits outside the
`try`, so its errors are fatal. -/
def processRM (reagent_record : Record) (inventory : List Material) (i : Nat) :
    List Nat → List (Nat × ReagentMaterial) → Except Fatal (List (Nat × ReagentMaterial))
  | [], rm_dict => .ok rm_dict
  | j :: js, rm_dict =>
    let base := "_raw_reagent_" ++ toString i ++ "_chemicals_" ++ toString j
    match recGet? reagent_record (base ++ "_inchikey"),
        recGet? reagent_record (base ++ "_actual_amount"),
        recGet? reagent_record (base ++ "_actual_amount_units") with
    | some vi, some va, some vu =>
      if vi.isna || va.isna || vu.isna then
        processRM reagent_record inventory i js rm_dict
      else do
        let mat ← Material.select_from vi inventory
        let rm ← mkReagentMaterial mat va vu
        processRM reagent_record inventory i js (dictInsertNat rm_dict j rm)
    | _, _, _ => processRM reagent_record inventory i js rm_dict

/-- One reagent slot of `get_reagent_table` (parser.py lines 76-133): the
dispensed-volume check (missing / NaN / ≤ 1e-6 skips the slot; a string
volume raises `TypeError`), the optional preparation volume/unit pair
(failures degrade to `None` plus a warning), the constituent loop, the
empty-slot skip, the prepare-unit conversion, and finally the
`Reagent(..., volume_prepare=...)` call — whose keyword is not accepted by
`Reagent.__init__`, raising `TypeError`. -/
def processSlot (reagent_record : Record) (inventory : List Material)
    (reagent_dict : List (Nat × Reagent)) (i : Nat) :
    Except Fatal (List (Nat × Reagent)) :=
  match recGet? reagent_record ("_raw_reagent_" ++ toString i ++ "_volume") with
  | none => .ok reagent_dict
  | some vvol =>
    if vvol.isna then .ok reagent_dict
    else match vvol with
      | .str s => .error (.typeError ("unorderable: " ++ s))
      | .na => .ok reagent_dict
      | .num vol =>
        if vol ≤ 1e-6 then .ok reagent_dict
        else do
          let prepPair : Option (ℚ × Value) ←
            match recGet? reagent_record
                ("_raw_reagent_" ++ toString i ++ "_instructions_2_volume"),
              recGet? reagent_record
                ("_raw_reagent_" ++ toString i ++ "_instructions_2_volume_units") with
            | some pv, some pu =>
              if pv.isna then pure none
              else match pv with
                | .str s => throw (.typeError ("unorderable: " ++ s))
                | .na => pure none
                | .num p =>
                  if p > 1e-6 ∧ ¬ pu.isna then pure (some (p, pu)) else pure none
            | _, _ => pure none
          let rm_dict ← processRM reagent_record inventory i (List.range 10) []
          if rm_dict = [] then pure reagent_dict
          else
            let _prepConverted : Option ℚ :=
              match prepPair with
              | some (p, .str u) => if u == "milliliter" then some (p * 1e-3) else some p
              | some (p, _) => some p
              | none => none
            if callAccepts reagent_init_params get_reagent_table_call_kwargs then
              pure (dictInsertNat reagent_dict i
                { reagent_material_table := rm_dict, volume_added := vol * 1e-6 })
            else throw (.typeError
              "Reagent.__init__() got an unexpected keyword argument: volume_prepare")

def getReagentTableGo (reagent_record : Record) (inventory : List Material) :
    List Nat → List (Nat × Reagent) → Except Fatal (List (Nat × Reagent))
  | [], d => .ok d
  | i :: is, d => do
      let d2 ← processSlot reagent_record inventory d i
      getReagentTableGo reagent_record inventory is d2

/-- `get_reagent_table` (parser.py lines 74-134), over the 10 reagent slots. -/
def get_reagent_table (reagent_record : Record) (inventory : List Material) :
    Except Fatal (List (Nat × Reagent)) :=
  getReagentTableGo reagent_record inventory (List.range 10) []

/-- The five value buckets produced by `get_subrecords` (parser.py 35-53). -/
structure Subrecords where
  reagent_record : Record
  reaction_record : Record
  feature_record : Record
  inchikey_category_record : Record
  mmol_record : Record
  deriving DecidableEq, Repr

def emptySubrecords : Subrecords :=
  { reagent_record := [], reaction_record := [], feature_record := [],
    inchikey_category_record := [], mmol_record := [] }

/-- `get_subrecords` loop body: `record[k]` raises `KeyError` when a listed
column is absent, and `classify_column` may raise `ValueError`. -/
def getSubrecordsGo (record : Record) :
    List String → Subrecords → Except Fatal Subrecords
  | [], acc => .ok acc
  | k :: ks, acc => do
      let v ← match recGet? record k with
        | some v => pure v
        | none => throw (.keyError k)
      let cat ← classify_column k
      let acc2 :=
        if cat == COL_REAGENT then
          { acc with reagent_record := acc.reagent_record ++ [(k, v)] }
        else if cat == COL_REACTION then
          { acc with reaction_record := acc.reaction_record ++ [(k, v)] }
        else if cat == COL_FEATURE then
          { acc with feature_record := acc.feature_record ++ [(k, v)] }
        else if cat == COL_RAW_INCHIKEY_CATEGORY then
          { acc with inchikey_category_record := acc.inchikey_category_record ++ [(k, v)] }
        else if cat == COL_RAW_MMOL_INCHI_KEY then
          { acc with mmol_record := acc.mmol_record ++ [(k, v)] }
        else acc
      getSubrecordsGo record ks acc2

def get_subrecords (record : Record) (keys : List String) : Except Fatal Subrecords :=
  getSubrecordsGo record keys emptySubrecords

/-- `re.sub(r"^_raw_", "", s)`. -/
def stripRawPrefix (s : String) : String :=
  if strStarts s "_raw_" then String.mk (s.toList.drop 5) else s

/-- `re.sub(r"_inchikey$", "", s)`. -/
def stripInchikeySuffix (s : String) : String :=
  if strEnds s "_inchikey" then String.mk (s.toList.take (s.toList.length - 9)) else s

/-- `get_category_x_to_inchikey` (parser.py lines 56-71): category token from
the column name, value upper-cased; NaN and non-string values skipped. -/
def getCatGo : Record → List (String × String) → List (String × String)
  | [], d => d
  | (k, v) :: rest, d =>
    let kk := if k == "_rxn_organic-inchikey" then "_raw_organic_0_inchikey" else strLower k
    let category := stripInchikeySuffix (stripRawPrefix kk)
    match v with
    | .str s => getCatGo rest (dictInsert d category (strUpper s))
    | _ => getCatGo rest d

def get_category_x_to_inchikey (inchi_key_type_record : Record) : List (String × String) :=
  getCatGo inchi_key_type_record []

/-- `{v: k for k, v in category_x_to_inchikey.items()}`. -/
def invertDict (d : List (String × String)) : List (String × String) :=
  d.foldl (fun acc p => dictInsert acc p.2 p.1) []

/-- The bijectivity assert of record_to_reaction (parser.py line 250). -/
def checkBijective (catmap : List (String × String)) : Except Fatal Unit :=
  if catmap.length = (invertDict catmap).length then .ok ()
  else .error (.assertionError "category map is not bijective")

/-- Models Python `s.split("_")` on character lists. -/
def splitOnUnd (l : List Char) : List (List Char) :=
  l.foldr
    (fun c acc =>
      if c == '_' then [] :: acc
      else
        match acc with
        | [] => [[c]]
        | g :: rest => (c :: g) :: rest)
    [[]]

/-- Inchikey extraction from a `_raw_mmol_*` column name (parser.py lines
257-259): the words containing exactly two dashes; the `assert len == 1` is
fatal when it fails. -/
def extractMmolKey (k : String) : Except Fatal String :=
  let words := (splitOnUnd k.toList).filter
    (fun w => (w.filter (fun c => c == '-')).length == 2)
  match words with
  | [w] => .ok (strUpper (String.mk w))
  | _ => .error (.assertionError ("inchikey extraction failed for: " ++ k))

/-- Mole aggregation loop of `record_to_reaction` (parser.py lines 254-266):
each raw value below 1e-5 (in the column's native millimole unit) is
discarded; kept values accumulate per upper-cased inchikey. -/
def aggregateMmolGo : Record → List (String × Value) → Except Fatal (List (String × Value))
  | [], d => .ok d
  | (k, v) :: rest, d => do
      let ik ← extractMmolKey k
      let lt ← v.ltNumE 1e-5
      if lt then aggregateMmolGo rest d
      else
        match dictGet? d ik with
        | some v0 => do
            let v2 ← v0.addV v
            aggregateMmolGo rest (dictInsert d ik v2)
        | none => aggregateMmolGo rest (dictInsert d ik v)

def aggregate_mmol (mmol_record : Record) : Except Fatal (List (String × Value)) :=
  aggregateMmolGo mmol_record []

/-! #### Feature extraction (`get_inchikey_to_features`, parser.py 137-151) -/

def isLowerAlpha (c : Char) : Bool := 'a' ≤ c && c ≤ 'z'

/-- Backtracking matcher for `re.findall(r"^[a-z]*_\d", s)[0]`: try lowercase
prefix lengths longest-first, require an underscore and then a digit. -/
def chemtypeSearch (cs : List Char) : List Nat → Option (List Char)
  | [] => none
  | n :: ns =>
    match cs.drop n with
    | '_' :: d :: _ =>
      if d.isDigit then some (cs.take n ++ ['_', d]) else chemtypeSearch cs ns
    | _ => chemtypeSearch cs ns

def chemtypeMatch (s : String) : Option String :=
  let cs := s.toList
  let maxRun := (cs.takeWhile isLowerAlpha).length
  (chemtypeSearch cs ((List.range (maxRun + 1)).reverse)).map String.mk

/-- Python `s.replace(pat, "", 1)`: drop the first occurrence of `pat`. -/
def removeFirstOccur (s pat : String) : String :=
  let cs := s.toList
  let p := pat.toList
  match (List.range (cs.length + 1)).find? (fun idx => List.isPrefixOf p (cs.drop idx)) with
  | some idx => String.mk (cs.take idx ++ cs.drop (idx + p.length))
  | none => s

def getFeaturesGo (catmap : List (String × String)) :
    Record → List (String × List (String × Value)) →
      Except Fatal (List (String × List (String × Value)))
  | [], data => .ok data
  | (k, v) :: rest, data => do
      let chemtype ← match chemtypeMatch (String.mk (k.toList.drop 6)) with
        | some c => pure c
        | none => throw .indexError
      let feature_name := removeFirstOccur k chemtype
      match dictGet? catmap chemtype with
      | none => getFeaturesGo catmap rest data
      | some inchikey =>
        let newFeat :=
          match dictGet? data inchikey with
          | some fd => dictInsert fd feature_name v
          | none => [(feature_name, v)]
        getFeaturesGo catmap rest (dictInsert data inchikey newFeat)

def get_inchikey_to_features (feature_record : Record)
    (catmap : List (String × String)) :
    Except Fatal (List (String × List (String × Value))) :=
  getFeaturesGo catmap feature_record []

/-! ### Reaction (schema.py lines 185-255) and record_to_reaction -/

/-- The outcome slot: `None`, a successfully converted `int(...)`, or — when
`ignore_absent_outcome` tolerates a failed conversion — the raw value as it
stood when the exception hit. -/
inductive OutVal where
  | none
  | intv (n : Int)
  | raw (v : Value)
  deriving DecidableEq, Repr

/-- The `properties` bag `record_to_reaction` attaches (parser.py 313-317). -/
structure ReactionProps where
  inchikey_to_features : List (String × List (String × Value))
  category_x_to_inchikey : List (String × String)
  mmol_data : List (String × Value)
  deriving DecidableEq, Repr

/-- `Reaction` (schema.py): identifier is whatever `record['name']` held. -/
structure Reaction where
  identifier : Value
  outcome : OutVal
  reaction_time : ℚ
  reaction_temperature : ℚ
  experiment_version : String
  reagent_table : List (Nat × Reagent)
  raw_rec : Record := []
  properties : ReactionProps
  deriving DecidableEq, Repr

/-- `Reaction.total_volume` (schema.py lines 231-233), in liter. -/
def Reaction.total_volume (r : Reaction) : ℚ :=
  (r.reagent_table.map (fun p => p.2.volume_added)).sum

/-- `Reaction.inchikey_to_material` (schema.py lines 241-247): insertion-order
dict over all constituents of all reagents. -/
def Reaction.inchikey_to_material (r : Reaction) : List (String × Material) :=
  r.reagent_table.foldl
    (fun d p => p.2.reagent_material_table.foldl
      (fun d2 q => dictInsert d2 q.2.material.inchikey q.2.material) d)
    []

/-- `Reaction.is_wf3`: version string starts with "3". -/
def Reaction.is_wf3 (r : Reaction) : Bool := strStarts r.experiment_version "3"

/-- Reaction-time validation (parser.py lines 268-275); `KeyError`, NaN and
out-of-range raise the record-scoped `ReactionParserError`, while a string
value dies in `>` with an uncaught `TypeError`. -/
def getReactionTime (record : Record) (nameV : Value) : Except RTRErr ℚ :=
  match recGet? record "_rxn_reactiontime_s" with
  | none => .error (.parser ("weird reaction time: " ++ nameV.render))
  | some v =>
    match v with
    | .num t =>
      if t > 1e-5 then .ok t
      else .error (.parser ("weird reaction time: " ++ nameV.render))
    | .str s => .error (.fatal (.typeError ("unorderable: " ++ s)))
    | .na => .error (.parser ("weird reaction time: " ++ nameV.render))

/-- Reaction-temperature validation (parser.py lines 277-284). -/
def getReactionTemperature (record : Record) (nameV : Value) : Except RTRErr ℚ :=
  match recGet? record "_rxn_temperature_c" with
  | none => .error (.parser ("weird reaction temperature: " ++ nameV.render))
  | some v =>
    match v with
    | .num t =>
      if t > -(27315/100) then .ok t
      else .error (.parser ("weird reaction temperature: " ++ nameV.render))
    | .str s => .error (.fatal (.typeError ("unorderable: " ++ s)))
    | .na => .error (.parser ("weird reaction temperature: " ++ nameV.render))

/-- Python `int(...)`: floats truncate toward zero, strings parse or raise
`ValueError`, NaN cannot convert. -/
def valueToIntE : Value → Except Unit Int
  | .num q => .ok (if 0 ≤ q then ⌊q⌋ else ⌈q⌉)
  | .str s =>
    match s.toInt? with
    | some n => .ok n
    | Option.none => .error ()
  | .na => .error ()

/-- Outcome validation (parser.py lines 286-295): the error message carries
the `outcome` variable as it stood when the exception hit (`None` after a
`KeyError`, the raw value otherwise); with `ignore_absent_outcome` the record
survives, keeping that same intermediate value. -/
def getOutcome (record : Record) (nameV : Value) (ignore_absent_outcome : Bool) :
    Except RTRErr OutVal :=
  match recGet? record target_column with
  | Option.none =>
    if ignore_absent_outcome then .ok .none
    else .error (.parser ("invalid outcome: " ++ nameV.render ++ ", None"))
  | some v =>
    if v.isna then
      if ignore_absent_outcome then .ok (.raw v)
      else .error (.parser ("invalid outcome: " ++ nameV.render ++ ", " ++ v.render))
    else
      match valueToIntE v with
      | .ok n => .ok (.intv n)
      | .error _ =>
        if ignore_absent_outcome then .ok (.raw v)
        else .error (.parser ("invalid outcome: " ++ nameV.render ++ ", " ++ v.render))

/-- Protocol-version read (parser.py lines 297-303).  `record["_raw_expver"]`
sits OUTSIDE the try, so a missing column raises an uncaught `KeyError`; the
value is stringified by `str(...)`, and `pd.isna` of a string is always
`False`, so the "invalid expver" parser error is unreachable. -/
def getExpver (record : Record) : Except RTRErr String :=
  match recGet? record "_raw_expver" with
  | Option.none => .error (.fatal (.keyError "_raw_expver"))
  | some v => .ok v.render

/-- The final rejection check of `record_to_reaction` (parser.py lines
320-323): raise `ReactionParserError` when the constructed reaction's total
dispensed volume is strictly below 1e-5 L.  The error message interpolates
the volume, not the reaction identifier. -/
def checkTotalVolume (reaction : Reaction) : Except RTRErr Reaction :=
  if reaction.total_volume < 1e-5 then
    .error (.parser ("invalid total volume: " ++ toString reaction.total_volume))
  else .ok reaction

/-- `record_to_reaction` (parser.py lines 239-323), stage for stage in source
order. -/
def record_to_reaction (record : Record) (inventory : List Material)
    (keys : List String) (ignore_absent_outcome : Bool) : Except RTRErr Reaction := do
  let nameV ← match recGet? record "name" with
    | some v => pure v
    | Option.none => throw (RTRErr.fatal (.keyError "name"))
  let subs ← (get_subrecords record keys).mapError RTRErr.fatal
  let catmap := get_category_x_to_inchikey subs.inchikey_category_record
  let _ ← (checkBijective catmap).mapError RTRErr.fatal
  let reagent_table ← (get_reagent_table subs.reagent_record inventory).mapError RTRErr.fatal
  let mmol_data ← (aggregate_mmol subs.mmol_record).mapError RTRErr.fatal
  let reaction_time ← getReactionTime record nameV
  let reaction_temperature ← getReactionTemperature record nameV
  let outcome ← getOutcome record nameV ignore_absent_outcome
  let expver ← getExpver record
  let feats ← (get_inchikey_to_features subs.feature_record catmap).mapError RTRErr.fatal
  let reaction : Reaction :=
    { identifier := nameV, outcome := outcome, reaction_time := reaction_time,
      reaction_temperature := reaction_temperature, experiment_version := expver,
      reagent_table := reagent_table, raw_rec := record,
      properties :=
        { inchikey_to_features := feats, category_x_to_inchikey := catmap,
          mmol_data := mmol_data } }
  checkTotalVolume reaction

/-- `collect_reactions` (parser.py lines 192-205): `ReactionParserError` is
caught, logged, and the record dropped; any other exception propagates and
aborts the batch. -/
def collect_reactions (inventory : List Material) (keys : List String)
    (ignore_absent_outcome : Bool) : List Record → Except Fatal (List Reaction)
  | [] => .ok []
  | r :: rs =>
    match record_to_reaction r inventory keys ignore_absent_outcome with
    | .ok reaction => do
        let rest ← collect_reactions inventory keys ignore_absent_outcome rs
        pure (reaction :: rest)
    | .error (.parser _) => collect_reactions inventory keys ignore_absent_outcome rs
    | .error (.fatal e) => .error e

/-! ### C7 -/

def cexProps : ReactionProps :=
  { inchikey_to_features := [], category_x_to_inchikey := [], mmol_data := [] }

def cexReaction7 : Reaction :=
  { identifier := Value.str "R7", outcome := OutVal.intv 4, reaction_time := 600,
    reaction_temperature := 25, experiment_version := "3.0",
    reagent_table := [(0, { reagent_material_table := [], volume_added := 1e-5 })],
    properties := cexProps }

/-! ### C6 -/

def Value.isNum : Value → Bool
  | .num _ => true
  | _ => false

/-- Numeric read-back from a Value dict. -/
def dictGetNum? (d : List (String × Value)) (k : String) : Option ℚ :=
  match dictGet? d k with
  | some (Value.num q) => some q
  | _ => none

/-- The individual raw column contributions that the mmol aggregation keeps
for a given inchikey: numeric values of columns naming that inchikey, not
below the 1e-5 threshold (in the column's native millimole unit). -/
def mmolContribs (mmolRec : Record) (ik : String) : List ℚ :=
  mmolRec.filterMap (fun p =>
    match p.2, extractMmolKey p.1 with
    | Value.num q, Except.ok ik2 => if ik2 = ik ∧ ¬ q < 1e-5 then some q else none
    | _, _ => none)

/-- Concrete mmol sub-record for exercising the aggregation: two raw columns
naming the same inchikey, one raw value 1/2 (kept) and one 1/1000000
(discarded by the 1e-5 cut on the raw value). -/
def cexMmolRec : Record :=
  [("_raw_mmol_AAAAAAAAAAAAAA-UHFFFAOYSA-N", Value.num (1/2)),
   ("_raw_mmol_acid_AAAAAAAAAAAAAA-UHFFFAOYSA-N", Value.num (1/1000000))]

/-! ### C2 -/

/-- Constituent `j` of reagent slot `i` has all three fields (inchikey,
amount, amount-unit) present and non-NaN, i.e. get_reagent_table's inner
`try` block (parser.py 99-107) completes without skipping it. -/
def validConstituent (reagent_record : Record) (i j : Nat) : Bool :=
  let base := "_raw_reagent_" ++ toString i ++ "_chemicals_" ++ toString j
  match recGet? reagent_record (base ++ "_inchikey"),
      recGet? reagent_record (base ++ "_actual_amount"),
      recGet? reagent_record (base ++ "_actual_amount_units") with
  | some vi, some va, some vu => !(vi.isna || va.isna || vu.isna)
  | _, _, _ => false

/-- Slot `i` passes the dispensed-volume check of parser.py lines 79-84:
the column is present with a numeric value strictly above 1e-6. -/
def slotVolumeOk (reagent_record : Record) (i : Nat) : Bool :=
  match recGet? reagent_record ("_raw_reagent_" ++ toString i ++ "_volume") with
  | some (Value.num vol) => decide ((1e-6 : ℚ) < vol)
  | _ => false

/-- Slot `i` passes the dispensed-volume check and holds at least one
fully-populated constituent, so `get_reagent_table` reaches the
`Reagent(...)` construction for it (unless an earlier fatal error fires). -/
def acceptableSlot (reagent_record : Record) (i : Nat) : Bool :=
  slotVolumeOk reagent_record i &&
    (List.range 10).any (fun j => validConstituent reagent_record i j)

def hasAcceptableSlot (reagent_record : Record) : Bool :=
  (List.range 10).any (fun i => acceptableSlot reagent_record i)

/-- A concrete record exercising the C2 failure: one reagent slot with a
dispensed volume of 100 µL and one fully-populated constituent. -/
def cexRec2 : Record :=
  [("name", Value.str "R2"),
   ("_raw_reagent_0_volume", Value.num 100),
   ("_raw_reagent_0_chemicals_0_inchikey", Value.str "YMWUJEATGCHHMB-UHFFFAOYSA-N"),
   ("_raw_reagent_0_chemicals_0_actual_amount", Value.num 1),
   ("_raw_reagent_0_chemicals_0_actual_amount_units", Value.str "gram")]

def cexKeys2 : List String :=
  ["_raw_reagent_0_volume",
   "_raw_reagent_0_chemicals_0_inchikey",
   "_raw_reagent_0_chemicals_0_actual_amount",
   "_raw_reagent_0_chemicals_0_actual_amount_units"]

def cexSubs2 : Subrecords :=
  { reagent_record :=
      [("_raw_reagent_0_volume", Value.num 100),
       ("_raw_reagent_0_chemicals_0_inchikey", Value.str "YMWUJEATGCHHMB-UHFFFAOYSA-N"),
       ("_raw_reagent_0_chemicals_0_actual_amount", Value.num 1),
       ("_raw_reagent_0_chemicals_0_actual_amount_units", Value.str "gram")],
    reaction_record := [], feature_record := [],
    inchikey_category_record := [], mmol_record := [] }

/-! ### C4 -/

/-- A record whose only validation failure is the final total-volume check:
name present, valid time/temperature/outcome/expver, but no reagent
columns, so the total dispensed volume is 0. -/
def cexRec4 : Record :=
  [("name", Value.str "R1"),
   ("_rxn_reactiontime_s", Value.num 600),
   ("_rxn_temperature_c", Value.num 25),
   ("_out_crystalscore", Value.num 4),
   ("_raw_expver", Value.str "3.0")]

/-- `cexRec4` without the `_raw_expver` column: the protocol-version read
sits outside the `try`, so this record dies with an uncaught `KeyError`. -/
def cexRec4b : Record :=
  [("name", Value.str "R1"),
   ("_rxn_reactiontime_s", Value.num 600),
   ("_rxn_temperature_c", Value.num 25),
   ("_out_crystalscore", Value.num 4)]

/-! ### C9 — `WF3Data.from_reaction` (schema.py lines 293-416) -/

def EscalateCategories : List String := ["organic", "inorganic", "solvent", "acid"]

/-- `WF3Data` (schema.py 259-291): the four category fields hold the
per-category molarity tables (inchikey → molarity, a raw float that can be
NaN) passed via `**category_molarity_table_mmol_data`. -/
structure WF3Data where
  identifier : Value
  fingerprint : String
  outcome : OutVal
  organic : List (String × Value)
  inorganic : List (String × Value)
  solvent : List (String × Value)
  acid : List (String × Value)
  alpha_vial_volume : ℚ
  beta_vial_volume : ℚ
  reaction_time : ℚ
  reaction_temperature : ℚ
  antisolvent_identity : String
  deriving DecidableEq, Repr

/-- Python `assert`: `AssertionError` when the condition is false. -/
def assertE (b : Bool) (e : Fatal) : Except Fatal Unit :=
  if b then .ok () else .error e

/-- `list(possible_antisolvents)[0]` guarded by `assert len(...) == 1`. -/
def theSingleE : List Nat → Except Fatal Nat
  | [i] => .ok i
  | _ => .error (.assertionError "len(possible_antisolvents) == 1")

/-- `reaction.reagent_table[i]` (`KeyError` when absent). -/
def dictGetNatE (d : List (Nat × Reagent)) (k : Nat) : Except Fatal Reagent :=
  match d.find? (fun p => p.1 == k) with
  | some p => .ok p.2
  | none => .error (.keyError (toString k))

/-- `list(d.keys())[0]` on the constituent table (`IndexError` when empty). -/
def listHeadE : List (Nat × ReagentMaterial) → Except Fatal ReagentMaterial
  | (_, rm) :: _ => .ok rm
  | [] => .error .indexError

/-- Generic `d[k]` with `KeyError` on a string-keyed dict. -/
def getCatE (t : List (String × α)) (k : String) : Except Fatal α :=
  match dictGet? t k with
  | some v => .ok v
  | none => .error (.keyError k)

/-- `mmol * 1e-3`: float scaling, `TypeError` on a string cell. -/
def Value.mulScaleE : Value → ℚ → Except Fatal Value
  | .num q, c => .ok (.num (q * c))
  | .na, _ => .ok .na
  | .str s, _ => .error (.typeError s)

/-- `x / vol`: `ZeroDivisionError` on a zero divisor (even for NaN `x`),
`TypeError` on a string cell. -/
def Value.divVolE (v : Value) (vol : ℚ) : Except Fatal Value :=
  if vol = 0 then .error .zeroDivisionError
  else match v with
    | .num q => .ok (.num (q / vol))
    | .na => .ok .na
    | .str s => .error (.typeError s)

/-- `{cat: {} for cat in EscalateCategories}`. -/
def catTableInit : List (String × List (String × Value)) :=
  [("organic", []), ("inorganic", []), ("solvent", []), ("acid", [])]

def catTableInitQ : List (String × List (String × ℚ)) :=
  [("organic", []), ("inorganic", []), ("solvent", []), ("acid", [])]

/-- `table[cat][ik] = v`: `KeyError` when the category bucket is absent. -/
def catTableSet (t : List (String × List (String × Value))) (cat ik : String)
    (v : Value) : Except Fatal (List (String × List (String × Value))) :=
  match dictGet? t cat with
  | some bucket => .ok (dictInsert t cat (dictInsert bucket ik v))
  | none => .error (.keyError cat)

/-- `try: table[cat][ik] += v except KeyError: table[cat][ik] = v` — a missing
inner key is caught and assigned, a missing category bucket re-raises
`KeyError` from the `except` branch (schema.py 369-372). -/
def catTableAdd (t : List (String × List (String × ℚ))) (cat ik : String)
    (v : ℚ) : Except Fatal (List (String × List (String × ℚ))) :=
  match dictGet? t cat with
  | none => .error (.keyError cat)
  | some bucket =>
    match dictGet? bucket ik with
    | some v0 => .ok (dictInsert t cat (dictInsert bucket ik (v0 + v)))
    | none => .ok (dictInsert t cat (dictInsert bucket ik v))

/-- `del table[cat][ik]` (schema.py 397-401). -/
def catTableDel (t : List (String × List (String × Value))) (cat ik : String) :
    Except Fatal (List (String × List (String × Value))) :=
  match dictGet? t cat with
  | none => .error (.keyError cat)
  | some bucket =>
    if bucket.any (fun p => p.1 == ik) then
      .ok (dictInsert t cat (bucket.filter (fun p => ¬ p.1 == ik)))
    else .error (.keyError ik)

/-- The mmol-data molarity loop (schema.py 344-358): for each entry of
`inchikey_to_material`, read `mmol_data[inchikey]` (`KeyError` when missing),
pick the beta-vial volume for the antisolvent's inchikey and the alpha-vial
volume otherwise, compute `mmol * 1e-3 / vol`, and store it in the category
bucket. -/
def mmolCatGo (mmol_data : List (String × Value)) (anti_ik : String)
    (alpha beta : ℚ) :
    List (String × Material) → List (String × List (String × Value)) →
    Except Fatal (List (String × List (String × Value)))
  | [], t => .ok t
  | (ik, mat) :: rest, t => do
      let mmolV ← getCatE mmol_data ik
      let vol := if ik == anti_ik then beta else alpha
      let m1 ← mmolV.mulScaleE 1e-3
      let molarity ← m1.divVolE vol
      let t2 ← catTableSet t mat.category ik molarity
      mmolCatGo mmol_data anti_ik alpha beta rest t2

/-- Inner constituent loop of the reagent-data branch (schema.py 363-372):
`moles = molarity_table[ik] * volume_added`, divided by the vial volume and
accumulated into the category bucket. -/
def rmCatGo (mt : List (String × ℚ)) (vol volume_added : ℚ) :
    List (Nat × ReagentMaterial) → List (String × List (String × ℚ)) →
    Except Fatal (List (String × List (String × ℚ)))
  | [], t => .ok t
  | (_, rm) :: rest, t => do
      let molar ← getCatE mt rm.material.inchikey
      let contrib ← divE (molar * volume_added) vol
      let t2 ← catTableAdd t rm.material.category rm.material.inchikey contrib
      rmCatGo mt vol volume_added rest t2

/-- Outer reagent loop of the reagent-data branch (schema.py 361-372): the
`assert reagent.molarity_table is not None` evaluates the property, which can
only raise (`ZeroDivisionError`) — it never yields `None`. -/
def reagentCatGo (anti_i : Nat) (alpha beta : ℚ) :
    List (Nat × Reagent) → List (String × List (String × ℚ)) →
    Except Fatal (List (String × List (String × ℚ)))
  | [], t => .ok t
  | (i, reag) :: rest, t => do
      let mt ← reag.molarity_tableE
      let t2 ← rmCatGo mt (if i == anti_i then beta else alpha) reag.volume_added
        reag.reagent_material_table t
      reagentCatGo anti_i alpha beta rest t2

/-- One step of the mmol/reagent cross-check (schema.py 377-394):
`adiff = abs(molarity_from_reagent - molarity_from_mmol)` then
`rdiff = adiff / molarity_from_reagent`; a string cell dies in the
subtraction (`TypeError`), a zero reagent-derived molarity dies in the
division (`ZeroDivisionError`, also for NaN numerators); the comparison
result is only logged. -/
def crossCheckOne (reagV : ℚ) (mmolV : Value) : Except Fatal Unit :=
  match mmolV with
  | .str s => .error (.typeError s)
  | _ => if reagV = 0 then .error .zeroDivisionError else .ok ()

def crossCheckGo (mmolT : List (String × List (String × Value)))
    (reagT : List (String × List (String × ℚ))) :
    List (String × Material) → Except Fatal Unit
  | [] => .ok ()
  | (ik, mat) :: rest => do
      let mmolBucket ← getCatE mmolT mat.category
      let mFromMmol ← getCatE mmolBucket ik
      let reagBucket ← getCatE reagT mat.category
      let mFromReag ← getCatE reagBucket ik
      let _ ← crossCheckOne mFromReag mFromMmol
      crossCheckGo mmolT reagT rest

/-- `WF3Data.from_reaction` (schema.py 293-416), stage for stage: the wf3
assert, antisolvent selection (`exactly one reagent with a single constituent
added above 500 µL`), vial volumes, the mmol-data molarity loop, the
reagent-data molarity loop, the key-set assert and cross-check, the deletion
of the antisolvent's entry from its category bucket, and the fingerprint
`"%".join(str(len(table[k])) for k in EscalateCategories)` — here written
with the four bucket lookups bound first, in the fixed category order
organic, inorganic, solvent, acid, exactly as `**table` passes them to the
constructor. -/
def WF3Data.from_reaction (r : Reaction) : Except Fatal WF3Data := do
  let _ ← assertE r.is_wf3 (.assertionError "reaction.is_wf3")
  let anti_i ← theSingleE (((r.reagent_table.filter (fun p =>
      p.2.reagent_material_table.length == 1 &&
        decide (p.2.volume_added > 500 * 1e-6))).map Prod.fst).dedup)
  let ra ← dictGetNatE r.reagent_table anti_i
  let rma ← listHeadE ra.reagent_material_table
  let beta := ((r.reagent_table.filter (fun p => p.1 == anti_i)).map
    (fun p => p.2.volume_added)).sum
  let alpha := ((r.reagent_table.filter (fun p => ¬ p.1 == anti_i)).map
    (fun p => p.2.volume_added)).sum
  let mmolT ← mmolCatGo r.properties.mmol_data rma.material.inchikey alpha beta
    r.inchikey_to_material catTableInit
  let reagT ← reagentCatGo anti_i alpha beta r.reagent_table catTableInitQ
  let _ ← assertE
    (decide ((mmolT.map Prod.fst).toFinset = (reagT.map Prod.fst).toFinset))
    (.assertionError "key sets differ")
  let _ ← crossCheckGo mmolT reagT r.inchikey_to_material
  let mmolT2 ← catTableDel mmolT rma.material.category rma.material.inchikey
  let organic ← getCatE mmolT2 "organic"
  let inorganic ← getCatE mmolT2 "inorganic"
  let solvent ← getCatE mmolT2 "solvent"
  let acid ← getCatE mmolT2 "acid"
  let fingerprint := String.intercalate "%"
    [toString organic.length, toString inorganic.length,
     toString solvent.length, toString acid.length]
  pure { identifier := r.identifier, fingerprint := fingerprint,
         outcome := r.outcome, organic := organic, inorganic := inorganic,
         solvent := solvent, acid := acid, alpha_vial_volume := alpha,
         beta_vial_volume := beta, reaction_time := r.reaction_time,
         reaction_temperature := r.reaction_temperature,
         antisolvent_identity := rma.material.inchikey }

def cex_mat_org2 : Material :=
  { inchikey := "CCCCCCCCCCCCCC-UHFFFAOYSA-N", mw := 100, category := "organic",
    name := "OrgChem2", density := 1, inchi := "InChI=1S/org2" }

/-- A wf3 reaction: one organic reagent (400 µL) and one DCM antisolvent
reagent (600 µL, single constituent, > 500 µL). -/
def cexR9a : Reaction :=
  { identifier := Value.str "W1", outcome := OutVal.intv 4, reaction_time := 600,
    reaction_temperature := 25, experiment_version := "3.0",
    reagent_table :=
      [(0, { reagent_material_table :=
               [(0, { material := cex_mat_org, amount := 1/50, amount_unit := "gram" })],
             volume_added := 1/2500 }),
       (1, { reagent_material_table :=
               [(0, { material := cex_mat_solv, amount := 1, amount_unit := "milliliter" })],
             volume_added := 3/5000 })],
    properties :=
      { inchikey_to_features := [], category_x_to_inchikey := [],
        mmol_data := [("AAAAAAAAAAAAAA-UHFFFAOYSA-N", Value.num 4),
                      ("YMWUJEATGCHHMB-UHFFFAOYSA-N", Value.num 6)] } }

/-- A second wf3 reaction with a different organic chemical, different
amounts, volumes, time, temperature and outcome, but the same per-category
cardinalities as `cexR9a`. -/
def cexR9b : Reaction :=
  { identifier := Value.str "W2", outcome := OutVal.intv 1, reaction_time := 500,
    reaction_temperature := 30, experiment_version := "3.1",
    reagent_table :=
      [(0, { reagent_material_table :=
               [(0, { material := cex_mat_org2, amount := 1/10, amount_unit := "gram" })],
             volume_added := 1/2000 }),
       (1, { reagent_material_table :=
               [(0, { material := cex_mat_solv, amount := 2, amount_unit := "milliliter" })],
             volume_added := 7/10000 })],
    properties :=
      { inchikey_to_features := [], category_x_to_inchikey := [],
        mmol_data := [("CCCCCCCCCCCCCC-UHFFFAOYSA-N", Value.num 5),
                      ("YMWUJEATGCHHMB-UHFFFAOYSA-N", Value.num 7)] } }

def cexW9a : WF3Data :=
  { identifier := Value.str "W1", fingerprint := "1%0%0%0",
    outcome := OutVal.intv 4,
    organic := [("AAAAAAAAAAAAAA-UHFFFAOYSA-N", Value.num 10)],
    inorganic := [], solvent := [], acid := [],
    alpha_vial_volume := 1/2500, beta_vial_volume := 3/5000,
    reaction_time := 600, reaction_temperature := 25,
    antisolvent_identity := "YMWUJEATGCHHMB-UHFFFAOYSA-N" }

def cexW9b : WF3Data :=
  { identifier := Value.str "W2", fingerprint := "1%0%0%0",
    outcome := OutVal.intv 1,
    organic := [("CCCCCCCCCCCCCC-UHFFFAOYSA-N", Value.num 10)],
    inorganic := [], solvent := [], acid := [],
    alpha_vial_volume := 1/2000, beta_vial_volume := 7/10000,
    reaction_time := 500, reaction_temperature := 30,
    antisolvent_identity := "YMWUJEATGCHHMB-UHFFFAOYSA-N" }

/-! ### C5 — `verify_convexhull.py` forward check -/

/-- `is_reagent_antisolvent` (verify_convexhull.py 17-20): evaluating
`reagent.molarity_table` can raise; `sorted(keys)[0]` on a singleton dict is
its only key. -/
def is_reagent_antisolvent (rr : Reagent) : Except Fatal Bool := do
  let mt ← rr.molarity_tableE
  match mt with
  | [(k, _)] => pure (k == "YMWUJEATGCHHMB-UHFFFAOYSA-N")
  | _ => pure false

/-- First loop of `get_reaction_molarity_table` (verify_convexhull.py 55-57):
`vol_alpha` is the sum of non-antisolvent added volumes. -/
def volAlphaGo : List (Nat × Reagent) → ℚ → Except Fatal ℚ
  | [], acc => .ok acc
  | (_, rr) :: rest, acc => do
      let anti ← is_reagent_antisolvent rr
      if anti then volAlphaGo rest acc
      else volAlphaGo rest (acc + rr.volume_added)

/-- Inner accumulation of the second loop (verify_convexhull.py 62-66):
`mt[i] += m * volume_added / vol_alpha`, with the missing-key `KeyError`
caught and assigned; a zero `vol_alpha` raises `ZeroDivisionError`. -/
def mtAddGo (vol_alpha va : ℚ) :
    List (String × ℚ) → List (String × ℚ) → Except Fatal (List (String × ℚ))
  | [], mt => .ok mt
  | (i, m) :: rest, mt => do
      let contrib ← divE (m * va) vol_alpha
      match dictGet? mt i with
      | some v0 => mtAddGo vol_alpha va rest (dictInsert mt i (v0 + contrib))
      | none => mtAddGo vol_alpha va rest (dictInsert mt i contrib)

def mtGo (vol_alpha : ℚ) :
    List (Nat × Reagent) → List (String × ℚ) → Except Fatal (List (String × ℚ))
  | [], mt => .ok mt
  | (_, rr) :: rest, mt => do
      let anti ← is_reagent_antisolvent rr
      if anti then mtGo vol_alpha rest mt
      else do
        let rrmt ← rr.molarity_tableE
        let mt2 ← mtAddGo vol_alpha rr.volume_added rrmt mt
        mtGo vol_alpha rest mt2

/-- `get_reaction_molarity_table` (verify_convexhull.py 51-68): the target
alpha-vial molarity table, reconstructed from the reaction's own
non-antisolvent reagents' molarity tables. -/
def get_reaction_molarity_table (r : Reaction) :
    Except Fatal (List (String × ℚ)) := do
  let vol_alpha ← volAlphaGo r.reagent_table 0
  mtGo vol_alpha r.reagent_table []

/-- `[rr for rr in r.reagent_table.values() if not is_reagent_antisolvent(rr)]`. -/
def nonAntiReagents : List (Nat × Reagent) → Except Fatal (List Reagent)
  | [] => .ok []
  | (_, rr) :: rest => do
      let anti ← is_reagent_antisolvent rr
      let others ← nonAntiReagents rest
      if anti then pure others else pure (rr :: others)

/-- One row of the stock-solution matrix (verify_convexhull.py 88-92): the
reagent's molarity per sorted inchikey, `KeyError` leaving the zero fill. -/
def ssRow (rrmt : List (String × ℚ)) (inchikeys : List String) : List ℚ :=
  inchikeys.map (fun ik => match dictGet? rrmt ik with | some m => m | none => 0)

/-- The forward-check inputs assembled by `get_checking_params`
(verify_convexhull.py 71-103).  The `ss_indices` row lookups against the
external `convexhull.csv` are omitted: they only validate that each stock
solution appears in the exported hull and do not enter `forward_check`. -/
structure ForwardParams where
  target_molarity : List ℚ
  ss_matrix : List (List ℚ)
  ss_vols : List ℚ
  inchikeys : List String
  deriving DecidableEq, Repr

/-- Effectful `map` over a list, as a Python `for`/comprehension: the first
raised error aborts. -/
def listMapE (f : α → Except Fatal β) : List α → Except Fatal (List β)
  | [] => .ok []
  | x :: xs => do
      let y ← f x
      let ys ← listMapE f xs
      pure (y :: ys)

def getForwardParams (r : Reaction) : Except Fatal ForwardParams := do
  let mt ← get_reaction_molarity_table r
  let inchikeys := sortByKey (fun s => s.toList) (mt.map Prod.fst)
  let target ← listMapE (fun i => getCatE mt i) inchikeys
  let reagents ← nonAntiReagents r.reagent_table
  let rows ← listMapE (fun rr => do
      let rrmt ← rr.molarity_tableE
      pure (ssRow rrmt inchikeys)) reagents
  let vols := reagents.map (fun rr => rr.volume_added)
  pure { target_molarity := target, ss_matrix := rows, ss_vols := vols,
         inchikeys := inchikeys }

/-- `np.allclose` with numpy's defaults `rtol=1e-5`, `atol=1e-8`. -/
def npAllclose (a b : List ℚ) : Bool :=
  a.length == b.length &&
  (List.zip a b).all (fun p => decide (|p.1 - p.2| ≤ 1e-8 + 1e-5 * |p.2|))

/-- `forward_check` (verify_convexhull.py 107-119):
`vs = ss_vols @ ss_matrix / sum(ss_vols)` compared against
`target_molarity` — the latter also reconstructed from the reagents'
molarity tables, never from the WF3Data-derived values.  (The rational
division returns 0 on a zero divisor; that case is unreachable from
successfully assembled parameters with a nonempty column set.) -/
def forward_check (p : ForwardParams) : Bool :=
  let s := p.ss_vols.sum
  let vs := (List.range p.inchikeys.length).map (fun j =>
    ((List.zip p.ss_vols p.ss_matrix).map
      (fun q => q.1 * (q.2.getD j 0))).sum / s)
  npAllclose vs p.target_molarity

/-- Total (default-`false`) view of the antisolvent test, used to state loop
invariants; it agrees with `is_reagent_antisolvent` wherever that returns. -/
def isAntiB (rr : Reagent) : Bool :=
  match is_reagent_antisolvent rr with
  | .ok b => b
  | .error _ => false

/-- Total view of a reagent's molarity-table lookup. -/
def reagentRow (rr : Reagent) (ik : String) : Option ℚ :=
  match Reagent.molarity_tableE rr with
  | .ok rrmt => dictGet? rrmt ik
  | .error _ => none

/-- The contribution of one non-antisolvent reagent to the reconstructed
alpha-vial molarity of inchikey `ik`. -/
def alphaContrib (V : ℚ) (rr : Reagent) (ik : String) : ℚ :=
  match reagentRow rr ik with
  | some m => m * rr.volume_added / V
  | none => 0

def cexP5 : ForwardParams :=
  { target_molarity := [5], ss_matrix := [[5]], ss_vols := [1/2500],
    inchikeys := ["AAAAAAAAAAAAAA-UHFFFAOYSA-N"] }

theorem except_bind_ok {e0 a0 b0 : Type} {P : Except e0 a0}
    {f : a0 → Except e0 b0} {b : b0}
    (h : (P >>= f) = Except.ok b) : ∃ a, P = Except.ok a ∧ f a = Except.ok b := by
  cases P with
  | error e => exact Except.noConfusion h
  | ok a => exact ⟨a, rfl, h⟩

/-! ### C1 -/

/-- C1 counterexample: the raw-prefixed column name `"_raw_purity"` matches
none of the documented reagent / mmol-by-identifier / molarity-by-identifier /
identifier-category patterns, yet `classify_column` returns the `raw_other`
category instead of raising the schema-mismatch error. -/
theorem classify_column_unmatched_raw_cex :
    classify_column "_raw_purity" = Except.ok COL_RAW_OTHER ∧
    strStarts "_raw_purity" "_raw" = true ∧
    strStarts "_raw_purity" "_raw_reagent" = false ∧
    strStarts "_raw_purity" "_raw_mmol" = false ∧
    strStarts "_raw_purity" "_raw_molarity" = false ∧
    strEnds (strLower "_raw_purity") "inchikey" = false := by
  exact ⟨rfl, rfl, rfl, rfl, rfl, rfl⟩

/-- C1 (amended): `classify_column` maps every column name to exactly one
category or raises the `ValueError`; a name beginning with the raw-data prefix
is always classified (unmatched raw-prefixed names fall into the `raw_other`
catch-all), and the error is raised exactly for names matching no pattern at
all — such names never start with the raw prefix. -/
theorem classify_error_characterization (cname : String) (e : Fatal)
    (h : classify_column cname = Except.error e) :
    e = Fatal.valueError ("unknown column name: " ++ cname) ∧
      strStarts cname "_raw" = false := by
  unfold classify_column at h
  by_cases c1 : (cname == target_column) = true
  · rw [if_pos c1] at h; exact Except.noConfusion h
  rw [if_neg c1] at h
  by_cases c2 : (cname == "name") = true
  · rw [if_pos c2] at h; exact Except.noConfusion h
  rw [if_neg c2] at h
  by_cases c3 : is_column_useless cname = true
  · rw [if_pos c3] at h; exact Except.noConfusion h
  rw [if_neg c3] at h
  by_cases c4 : strStarts cname "_feat" = true
  · rw [if_pos c4] at h; exact Except.noConfusion h
  rw [if_neg c4] at h
  by_cases c5 : strStarts cname "_calc" = true
  · rw [if_pos c5] at h; exact Except.noConfusion h
  rw [if_neg c5] at h
  by_cases c6 : strStarts cname "_raw_reagent" = true
  · rw [if_pos c6] at h; exact Except.noConfusion h
  rw [if_neg c6] at h
  by_cases c7 : (strStarts cname "_rxn" && !strEnds cname "-inchikey") = true
  · rw [if_pos c7] at h; exact Except.noConfusion h
  rw [if_neg c7] at h
  by_cases c8 : (strStarts cname "_raw_mmol" && countDash cname == 2) = true
  · rw [if_pos c8] at h; exact Except.noConfusion h
  rw [if_neg c8] at h
  by_cases c9 : (strStarts cname "_raw_molarity" && countDash cname == 2) = true
  · rw [if_pos c9] at h; exact Except.noConfusion h
  rw [if_neg c9] at h
  by_cases c10 : (strStarts cname "_raw" && strEnds (strLower cname) "inchikey"
      || cname == "_rxn_organic-inchikey") = true
  · rw [if_pos c10] at h; exact Except.noConfusion h
  rw [if_neg c10] at h
  by_cases c11 : strStarts cname "_raw" = true
  · rw [if_pos c11] at h; exact Except.noConfusion h
  rw [if_neg c11] at h
  injection h with hmsg
  exact ⟨hmsg.symm, by simpa using c11⟩

/-- C1 (amended): `classify_column` maps every column name to exactly one
category or raises the `ValueError`; a name beginning with the raw-data prefix
is always classified (unmatched raw-prefixed names fall into the `raw_other`
catch-all), and the error is raised exactly for names matching no pattern at
all — such names never start with the raw prefix. -/
theorem classify_column_total (cname : String) :
    (∃ cat, classify_column cname = Except.ok cat) ∨
    (classify_column cname =
        Except.error (Fatal.valueError ("unknown column name: " ++ cname)) ∧
      strStarts cname "_raw" = false) := by
  rcases hc : classify_column cname with e | cat
  · have h2 := classify_error_characterization cname e hc
    exact Or.inr ⟨by rw [h2.1], h2.2⟩
  · exact Or.inl ⟨cat, rfl⟩

/-! ### C3 -/

/-- C3 (amended): the reagent molarity table is computed from the reagent's
own constituents — `c.mol / volume_sum` per constituent — and is defined
exactly when the reagent has no constituents, or every constituent's mole
amount is defined (known unit, nonzero molecular weight) and the volume sum
is defined (nonzero density for gram-unit constituents) and nonzero.  Its
availability cannot depend on a preparation volume because `Reagent.__init__`
accepts no `volume_prepare` parameter at all. -/
theorem molarity_table_defined_iff (r : Reagent) :
    ((∃ t, Reagent.molarity_tableE r = Except.ok t) ↔
      (r.reagent_material_table = [] ∨
        ((∀ p ∈ r.reagent_material_table, ∃ q, p.2.molE = Except.ok q) ∧
         (∃ V, Reagent.volume_sumE r = Except.ok V ∧ V ≠ 0)))) ∧
    reagent_init_params.contains "volume_prepare" = false := by
  refine ⟨?_, by decide⟩
  have key_fwd : ∀ (l : List (Nat × ReagentMaterial)) (d t : List (String × ℚ)),
      molarityTableGo r l d = Except.ok t →
      (∀ p ∈ l, ∃ q, p.2.molE = Except.ok q) ∧
      (l ≠ [] → ∃ V, Reagent.volume_sumE r = Except.ok V ∧ V ≠ 0) := by
    intro l
    induction l with
    | nil =>
      intro d t _
      exact ⟨fun p hp => absurd hp (List.not_mem_nil p), fun hne => absurd rfl hne⟩
    | cons p rest ih =>
      intro d t h
      rw [molarityTableGo] at h
      obtain ⟨q, hq, h⟩ := except_bind_ok h
      obtain ⟨V, hV, h⟩ := except_bind_ok h
      obtain ⟨m, hm, h⟩ := except_bind_ok h
      have hVne : V ≠ 0 := by
        intro hc
        rw [divE, if_pos hc] at hm
        exact Except.noConfusion hm
      obtain ⟨hall, _⟩ := ih _ t h
      refine ⟨?_, fun _ => ⟨V, hV, hVne⟩⟩
      intro p2 hp2
      rcases List.mem_cons.mp hp2 with h1 | h1
      · exact ⟨q, h1 ▸ hq⟩
      · exact hall p2 h1
  have key_bwd : ∀ (l : List (Nat × ReagentMaterial)) (d : List (String × ℚ)),
      (∀ p ∈ l, ∃ q, p.2.molE = Except.ok q) →
      (∃ V, Reagent.volume_sumE r = Except.ok V ∧ V ≠ 0) →
      ∃ t, molarityTableGo r l d = Except.ok t := by
    intro l
    induction l with
    | nil => exact fun d _ _ => ⟨d, rfl⟩
    | cons p rest ih =>
      intro d hall hV
      obtain ⟨V, hVok, hVne⟩ := hV
      obtain ⟨q, hq⟩ := hall p (List.mem_cons_self p rest)
      have hdiv : divE q V = Except.ok (q / V) := by
        rw [divE, if_neg hVne]
      obtain ⟨t, ht⟩ := ih (dictInsert d p.2.material.inchikey (q / V))
        (fun p2 hp2 => hall p2 (List.mem_cons_of_mem p hp2)) ⟨V, hVok, hVne⟩
      refine ⟨t, ?_⟩
      rw [molarityTableGo, hq]
      simp only [bind, Except.bind]
      rw [hVok]
      simp only [bind, Except.bind]
      rw [hdiv]
      simp only [bind, Except.bind]
      exact ht
  constructor
  · intro ⟨t, ht⟩
    rcases h : r.reagent_material_table with _ | ⟨p, rest⟩
    · exact Or.inl rfl
    · rw [Reagent.molarity_tableE, h] at ht
      obtain ⟨hall, hne⟩ := key_fwd (p :: rest) [] t ht
      exact Or.inr ⟨hall, hne (by simp)⟩
  · intro h
    rcases h with h | ⟨hall, hV⟩
    · exact ⟨[], by rw [Reagent.molarity_tableE, h]; rfl⟩
    · rw [Reagent.molarity_tableE]
      exact key_bwd r.reagent_material_table [] hall hV

/-- C3 counterexample: a concrete reagent with one constituent (0.02 g of a
mw-200 chemical).  No preparation volume exists anywhere — the `Reagent`
constructor does not even accept a `volume_prepare` keyword — yet its molarity
table is defined (0.0001 mol / 0.00002 L = 5 mol/L), refuting "defined only
when `volume_prepare` is known and positive". -/
theorem molarity_table_no_volume_prepare_cex :
    Reagent.molarity_tableE cex_reagent3 =
      Except.ok [("AAAAAAAAAAAAAA-UHFFFAOYSA-N", 5)] ∧
    reagent_init_params.contains "volume_prepare" = false := by
  decide

theorem groupRuns_join [DecidableEq κ] (key : α → κ) (l : List α) :
    ((groupRuns key l).map (fun p => p.2)).join = l := by
  induction l with
  | nil => rfl
  | cons a l ih =>
    cases h : groupRuns key l with
    | nil =>
      rw [h] at ih
      simp only [groupRuns, h]
      simpa using ih.symm
    | cons p rest =>
      rw [h] at ih
      obtain ⟨k, g⟩ := p
      by_cases hk : key a = k
      · simp only [groupRuns, h, if_pos hk]
        simpa using ih
      · simp only [groupRuns, h, if_neg hk]
        simpa using ih

theorem insertByKey_perm [LinearOrder κ] (key : α → κ) (a : α) (l : List α) :
    (insertByKey key a l).Perm (a :: l) := by
  induction l with
  | nil => exact List.Perm.refl _
  | cons b l ih =>
    by_cases h : key a ≤ key b
    · rw [insertByKey, if_pos h]
    · rw [insertByKey, if_neg h]
      exact (ih.cons b).trans (List.Perm.swap a b l)

theorem sortByKey_perm [LinearOrder κ] (key : α → κ) (l : List α) :
    (sortByKey key l).Perm l := by
  induction l with
  | nil => exact List.Perm.refl _
  | cons a l ih =>
    exact (insertByKey_perm key a (sortByKey key l)).trans (ih.cons a)

theorem filter_insertByKey [LinearOrder κ] (key : α → κ) (a : α) (l : List α) (k : κ) :
    (insertByKey key a l).filter (fun x => decide (key x = k)) =
      if key a = k then a :: l.filter (fun x => decide (key x = k))
      else l.filter (fun x => decide (key x = k)) := by
  induction l with
  | nil =>
    by_cases h : key a = k
    · simp [insertByKey, h]
    · simp [insertByKey, h]
  | cons b l ih =>
    by_cases hle : key a ≤ key b
    · rw [insertByKey, if_pos hle]
      by_cases h : key a = k
      · simp [List.filter_cons, h]
      · simp [List.filter_cons, h]
    · rw [insertByKey, if_neg hle]
      have hblt : key b < key a := lt_of_not_le hle
      by_cases h : key a = k
      · have hbk : ¬ key b = k := fun hb => absurd (h ▸ hb ▸ hblt) (lt_irrefl _)
        simp [List.filter_cons, ih, h, hbk]
      · by_cases hbk : key b = k
        · simp [List.filter_cons, ih, h, hbk]
        · simp [List.filter_cons, ih, h, hbk]

theorem filter_sortByKey [LinearOrder κ] (key : α → κ) (l : List α) (k : κ) :
    (sortByKey key l).filter (fun x => decide (key x = k)) =
      l.filter (fun x => decide (key x = k)) := by
  induction l with
  | nil => rfl
  | cons a l ih =>
    rw [sortByKey, filter_insertByKey]
    by_cases h : key a = k
    · simp [List.filter_cons, ih, h]
    · simp [List.filter_cons, ih, h]

theorem pairwise_insertByKey [LinearOrder κ] (key : α → κ) (a : α) (l : List α)
    (hl : l.Pairwise (fun x y => key x ≤ key y)) :
    (insertByKey key a l).Pairwise (fun x y => key x ≤ key y) := by
  induction l with
  | nil => simp [insertByKey]
  | cons b l ih =>
    by_cases h : key a ≤ key b
    · rw [insertByKey, if_pos h]
      refine List.Pairwise.cons ?_ hl
      intro x hx
      rcases List.mem_cons.mp hx with hx1 | hx1
      · exact hx1 ▸ h
      · exact le_trans h (List.rel_of_pairwise_cons hl hx1)
    · rw [insertByKey, if_neg h]
      have hba : key b ≤ key a := le_of_lt (lt_of_not_le h)
      refine List.Pairwise.cons ?_ (ih hl.tail)
      intro x hx
      have hx2 := (insertByKey_perm key a l).mem_iff.mp hx
      rcases List.mem_cons.mp hx2 with hx3 | hx3
      · exact hx3 ▸ hba
      · exact List.rel_of_pairwise_cons hl hx3

theorem pairwise_sortByKey [LinearOrder κ] (key : α → κ) (l : List α) :
    (sortByKey key l).Pairwise (fun x y => key x ≤ key y) := by
  induction l with
  | nil => exact List.Pairwise.nil
  | cons a l ih => exact pairwise_insertByKey key a _ ih

theorem groupRuns_key_of_mem [DecidableEq κ] (key : α → κ) (l : List α) :
    ∀ p ∈ groupRuns key l, ∀ x ∈ p.2, key x = p.1 := by
  induction l with
  | nil => intro p hp; simp [groupRuns] at hp
  | cons a l ih =>
    intro p hp x hx
    cases hgr : groupRuns key l with
    | nil =>
      simp only [groupRuns, hgr] at hp
      simp at hp
      subst hp
      simp at hx
      subst hx
      rfl
    | cons q rest =>
      obtain ⟨k0, g0⟩ := q
      simp only [groupRuns, hgr] at hp
      by_cases hk : key a = k0
      · rw [if_pos hk] at hp
        rcases List.mem_cons.mp hp with h1 | h1
        · subst h1
          rcases List.mem_cons.mp hx with h2 | h2
          · subst h2; rfl
          · exact (ih (k0, g0) (hgr ▸ List.mem_cons_self _ _) x h2).trans hk.symm
        · exact ih p (hgr ▸ List.mem_cons_of_mem _ h1) x hx
      · rw [if_neg hk] at hp
        rcases List.mem_cons.mp hp with h1 | h1
        · subst h1
          simp at hx
          subst hx
          rfl
        · exact ih p (hgr ▸ h1) x hx

theorem groupRuns_ne_nil [DecidableEq κ] (key : α → κ) (l : List α) :
    ∀ p ∈ groupRuns key l, p.2 ≠ [] := by
  induction l with
  | nil => intro p hp; simp [groupRuns] at hp
  | cons a l ih =>
    intro p hp
    cases hgr : groupRuns key l with
    | nil =>
      simp only [groupRuns, hgr] at hp
      simp at hp
      subst hp
      simp
    | cons q rest =>
      obtain ⟨k0, g0⟩ := q
      simp only [groupRuns, hgr] at hp
      by_cases hk : key a = k0
      · rw [if_pos hk] at hp
        rcases List.mem_cons.mp hp with h1 | h1
        · subst h1; simp
        · exact ih p (hgr ▸ List.mem_cons_of_mem _ h1)
      · rw [if_neg hk] at hp
        rcases List.mem_cons.mp hp with h1 | h1
        · subst h1; simp
        · exact ih p (hgr ▸ h1)

theorem groupRuns_key_mem [DecidableEq κ] (key : α → κ) (l : List α)
    (p : κ × List α) (hp : p ∈ groupRuns key l) : ∃ x ∈ l, key x = p.1 := by
  have hne := groupRuns_ne_nil key l p hp
  obtain ⟨x, hx⟩ := List.exists_mem_of_ne_nil p.2 hne
  refine ⟨x, ?_, groupRuns_key_of_mem key l p hp x hx⟩
  have hmem : x ∈ ((groupRuns key l).map (fun p => p.2)).join :=
    List.mem_join.mpr ⟨p.2, List.mem_map_of_mem _ hp, hx⟩
  rw [groupRuns_join] at hmem
  exact hmem

theorem groupRuns_cons_shape [DecidableEq κ] (key : α → κ) (a : α) (l : List α) :
    ∃ g rest, groupRuns key (a :: l) = (key a, g) :: rest := by
  cases hgr : groupRuns key l with
  | nil => exact ⟨[a], [], by simp only [groupRuns, hgr]⟩
  | cons q rest =>
    obtain ⟨k0, g0⟩ := q
    by_cases hk : key a = k0
    · exact ⟨a :: g0, rest, by simp only [groupRuns, hgr]; rw [if_pos hk]⟩
    · exact ⟨[a], (k0, g0) :: rest, by simp only [groupRuns, hgr]; rw [if_neg hk]⟩

theorem groupRuns_keys_pairwise_lt [LinearOrder κ] (key : α → κ) (l : List α)
    (hl : l.Pairwise (fun x y => key x ≤ key y)) :
    ((groupRuns key l).map (fun p => p.1)).Pairwise (fun u v => u < v) := by
  induction l with
  | nil => exact List.Pairwise.nil
  | cons a l ih =>
    have hta := hl.tail
    have hha : ∀ x ∈ l, key a ≤ key x := fun x hx => List.rel_of_pairwise_cons hl hx
    cases hgr : groupRuns key l with
    | nil => simp [groupRuns, hgr]
    | cons q rest =>
      obtain ⟨k0, g0⟩ := q
      have ihp := ih hta
      rw [hgr] at ihp
      obtain ⟨x0, hx0l, hx0k⟩ := groupRuns_key_mem key l (k0, g0) (hgr ▸ List.mem_cons_self _ _)
      have hak0 : key a ≤ k0 := by
        have h9 := hha x0 hx0l
        rw [hx0k] at h9
        exact h9
      by_cases hk : key a = k0
      · simp only [groupRuns, hgr]
        rw [if_pos hk]
        simp only [List.map_cons] at ihp ⊢
        rw [hk]
        exact ihp
      · simp only [groupRuns, hgr]
        rw [if_neg hk]
        simp only [List.map_cons] at ihp ⊢
        have halt : key a < k0 := lt_of_le_of_ne hak0 hk
        refine List.Pairwise.cons ?_ ihp
        intro v hv
        rcases List.mem_cons.mp hv with h1 | h1
        · exact h1 ▸ halt
        · exact lt_trans halt (List.rel_of_pairwise_cons ihp h1)

theorem groupRuns_filter_sorted [LinearOrder κ] (key : α → κ) (l : List α)
    (hl : l.Pairwise (fun x y => key x ≤ key y)) :
    ∀ p ∈ groupRuns key l, p.2 = l.filter (fun x => decide (key x = p.1)) := by
  induction l with
  | nil => intro p hp; simp [groupRuns] at hp
  | cons a l ih =>
    have hta := hl.tail
    have hha : ∀ x ∈ l, key a ≤ key x := fun x hx => List.rel_of_pairwise_cons hl hx
    intro p hp
    cases hgr : groupRuns key l with
    | nil =>
      have hlnil : l = [] := by
        have hj := groupRuns_join key l
        rw [hgr] at hj
        simpa using hj.symm
      subst hlnil
      simp only [groupRuns, hgr] at hp
      simp at hp
      subst hp
      simp [List.filter_cons]
    | cons q rest =>
      obtain ⟨k0, g0⟩ := q
      obtain ⟨x0, hx0l, hx0k⟩ := groupRuns_key_mem key l (k0, g0) (hgr ▸ List.mem_cons_self _ _)
      have hak0 : key a ≤ k0 := by
        have h9 := hha x0 hx0l
        rw [hx0k] at h9
        exact h9
      have hkeys := groupRuns_keys_pairwise_lt key l hta
      rw [hgr] at hkeys
      simp only [List.map_cons] at hkeys
      simp only [groupRuns, hgr] at hp
      by_cases hk : key a = k0
      · rw [if_pos hk] at hp
        rcases List.mem_cons.mp hp with h1 | h1
        · subst h1
          have hg0 := ih hta (k0, g0) (hgr ▸ List.mem_cons_self _ _)
          have hg0a : g0 = l.filter (fun x => decide (key x = key a)) := by
            rw [hk]
            simpa using hg0
          simp [List.filter_cons, hg0a.symm]
        · have hmem : p ∈ groupRuns key l := hgr ▸ List.mem_cons_of_mem _ h1
          have hrec := ih hta p hmem
          have hp1 : p.1 ∈ rest.map (fun p => p.1) := List.mem_map_of_mem _ h1
          have hk0p : k0 < p.1 := List.rel_of_pairwise_cons hkeys hp1
          have hanep : ¬ key a = p.1 := fun he => absurd (he ▸ (hk ▸ hk0p)) (lt_irrefl _)
          rw [hrec]
          simp [List.filter_cons, hanep]
      · rw [if_neg hk] at hp
        rcases List.mem_cons.mp hp with h1 | h1
        · subst h1
          have hfl : l.filter (fun x => decide (key x = key a)) = [] := by
            rw [List.filter_eq_nil]
            intro x hx
            simp only [decide_eq_true_eq]
            intro hxa
            rcases hll : l with _ | ⟨b, l'⟩
            · rw [hll] at hx; simp at hx
            · rw [hll] at hgr hx hta hha
              obtain ⟨g', rest', hshape⟩ := groupRuns_cons_shape key b l'
              rw [hshape] at hgr
              injection hgr with h5 h6
              injection h5 with hbk0 hgg
              have hbx : key b ≤ key x := by
                rcases List.mem_cons.mp hx with h2 | h2
                · exact h2 ▸ le_refl _
                · exact List.rel_of_pairwise_cons hta h2
              have h3 : key b ≤ key a := hxa ▸ hbx
              have h4 : key a ≤ key b := hha b (List.mem_cons_self _ _)
              exact hk ((le_antisymm h4 h3) ▸ hbk0)
          simp [List.filter_cons, hfl]
        · have hmem : p ∈ groupRuns key l := hgr ▸ h1
          have hrec := ih hta p hmem
          have hanep : ¬ key a = p.1 := by
            rcases List.mem_cons.mp h1 with h2 | h2
            · rw [h2]
              exact hk
            · have hp1 : p.1 ∈ rest.map (fun p => p.1) := List.mem_map_of_mem _ h2
              have hk0p : k0 < p.1 := List.rel_of_pairwise_cons hkeys hp1
              exact fun he => absurd (lt_of_le_of_lt hak0 hk0p) (he ▸ lt_irrefl _)
          rw [hrec]
          simp [List.filter_cons, hanep]

/-- C8: `group_reactions` is a true partition: the multiset union of all
buckets is the input (each input element lands in exactly one bucket, by
multiplicity), each bucket is exactly the sublist of input elements carrying
its key — hence in their original relative order — and bucket keys are
pairwise distinct. -/
theorem group_reactions_partition [LinearOrder κ] (key : α → κ) (l : List α) :
    (((group_reactions key l).map (fun p => p.2)).join).Perm l ∧
    (∀ p ∈ group_reactions key l, p.2 = l.filter (fun x => decide (key x = p.1))) ∧
    ((group_reactions key l).map (fun p => p.1)).Nodup := by
  refine ⟨?_, ?_, ?_⟩
  · rw [group_reactions, groupRuns_join]
    exact sortByKey_perm key l
  · intro p hp
    have h1 := groupRuns_filter_sorted key (sortByKey key l) (pairwise_sortByKey key l) p hp
    rw [h1, filter_sortByKey]
  · have h2 := groupRuns_keys_pairwise_lt key (sortByKey key l) (pairwise_sortByKey key l)
    exact h2.imp (fun h => ne_of_lt h)

theorem mem_ddfAux [DecidableEq β] (l : List β) :
    ∀ (seen : List β) (x : β), x ∈ ddfAux seen l ↔ x ∈ l ∧ x ∉ seen := by
  induction l with
  | nil => intro seen x; simp [ddfAux]
  | cons a l ih =>
    intro seen x
    by_cases h : a ∈ seen
    · rw [ddfAux, if_pos h, ih]
      constructor
      · rintro ⟨h1, h2⟩; exact ⟨List.mem_cons_of_mem _ h1, h2⟩
      · rintro ⟨h1, h2⟩
        rcases List.mem_cons.mp h1 with h3 | h3
        · exact absurd (h3 ▸ h) h2
        · exact ⟨h3, h2⟩
    · rw [ddfAux, if_neg h]
      constructor
      · intro hx
        rcases List.mem_cons.mp hx with h3 | h3
        · exact ⟨h3 ▸ List.mem_cons_self _ _, h3 ▸ h⟩
        · have := (ih (a :: seen) x).mp h3
          exact ⟨List.mem_cons_of_mem _ this.1,
            fun hc => this.2 (List.mem_cons_of_mem _ hc)⟩
      · rintro ⟨h1, h2⟩
        rcases List.mem_cons.mp h1 with h3 | h3
        · exact h3 ▸ List.mem_cons_self _ _
        · by_cases hxa : x = a
          · exact hxa ▸ List.mem_cons_self _ _
          · exact List.mem_cons_of_mem _ ((ih (a :: seen) x).mpr
              ⟨h3, fun hc => (List.mem_cons.mp hc).elim hxa h2⟩)

theorem ddfAux_nodup [DecidableEq β] (l : List β) :
    ∀ seen : List β, (ddfAux seen l).Nodup := by
  induction l with
  | nil => intro seen; simp [ddfAux]
  | cons a l ih =>
    intro seen
    by_cases h : a ∈ seen
    · rw [ddfAux, if_pos h]; exact ih seen
    · rw [ddfAux, if_neg h]
      refine List.Nodup.cons ?_ (ih (a :: seen))
      intro hc
      exact ((mem_ddfAux l (a :: seen) a).mp hc).2 (List.mem_cons_self _ _)

theorem ddfAux_congr [DecidableEq β] (l : List β) :
    ∀ (s1 s2 : List β), (∀ x, x ∈ s1 ↔ x ∈ s2) → ddfAux s1 l = ddfAux s2 l := by
  induction l with
  | nil => intro s1 s2 _; rfl
  | cons a l ih =>
    intro s1 s2 hs
    by_cases h : a ∈ s1
    · rw [ddfAux, if_pos h, ddfAux, if_pos ((hs a).mp h)]
      exact ih s1 s2 hs
    · rw [ddfAux, if_neg h, ddfAux, if_neg (fun hc => h ((hs a).mpr hc))]
      refine congrArg _ (ih (a :: s1) (a :: s2) fun x => ?_)
      simp only [List.mem_cons]
      exact or_congr Iff.rfl (hs x)

theorem ddfAux_append [DecidableEq β] (l1 : List β) :
    ∀ (l2 seen : List β),
      ddfAux seen (l1 ++ l2) = ddfAux seen l1 ++ ddfAux (l1 ++ seen) l2 := by
  induction l1 with
  | nil => intro l2 seen; rfl
  | cons a l1 ih =>
    intro l2 seen
    by_cases h : a ∈ seen
    · rw [List.cons_append, ddfAux, if_pos h, ddfAux, if_pos h, ih]
      refine congrArg _ (ddfAux_congr l2 _ _ fun x => ?_)
      simp only [List.mem_append, List.mem_cons]
      constructor
      · rintro (h1 | h1)
        · exact Or.inl (Or.inr h1)
        · exact Or.inr h1
      · rintro ((h1 | h1) | h1)
        · exact Or.inr (h1 ▸ h)
        · exact Or.inl h1
        · exact Or.inr h1
    · rw [List.cons_append, ddfAux, if_neg h, ddfAux, if_neg h, ih, List.cons_append]
      refine congrArg _ (congrArg _ (ddfAux_congr l2 _ _ fun x => ?_))
      simp only [List.mem_append, List.mem_cons]
      tauto

theorem ddfAux_eq_nil [DecidableEq β] (l : List β) :
    ∀ seen : List β, (∀ x ∈ l, x ∈ seen) → ddfAux seen l = [] := by
  induction l with
  | nil => intro seen _; rfl
  | cons a l ih =>
    intro seen hall
    rw [ddfAux, if_pos (hall a (List.mem_cons_self _ _))]
    exact ih seen fun x hx => hall x (List.mem_cons_of_mem _ hx)

theorem ddfAux_eq_self [DecidableEq β] (l : List β) :
    ∀ seen : List β, l.Nodup → (∀ x ∈ l, x ∉ seen) → ddfAux seen l = l := by
  induction l with
  | nil => intro seen _ _; rfl
  | cons a l ih =>
    intro seen hn hout
    rw [ddfAux, if_neg (hout a (List.mem_cons_self _ _))]
    refine congrArg _ (ih (a :: seen) hn.of_cons fun x hx => ?_)
    intro hc
    rcases List.mem_cons.mp hc with h1 | h1
    · exact (List.nodup_cons.mp hn).1 (h1 ▸ hx)
    · exact hout x (List.mem_cons_of_mem _ hx) h1

theorem dedupKeepFirst_nodup [DecidableEq β] (l : List β) :
    (dedupKeepFirst l).Nodup := ddfAux_nodup l []

theorem mem_dedupKeepFirst [DecidableEq β] (l : List β) (x : β) :
    x ∈ dedupKeepFirst l ↔ x ∈ l := by
  rw [dedupKeepFirst, mem_ddfAux]
  simp

theorem toFinset_dedupKeepFirst [DecidableEq β] (l : List β) :
    (dedupKeepFirst l).toFinset = l.toFinset := by
  ext x
  simp [List.mem_toFinset, mem_dedupKeepFirst]

theorem dedupKeepFirst_eq_self [DecidableEq β] (l : List β) (h : l.Nodup) :
    dedupKeepFirst l = l :=
  ddfAux_eq_self l [] h (by simp)

theorem dedupKeepFirst_append_self [DecidableEq β] (l : List β) :
    dedupKeepFirst (l ++ l) = dedupKeepFirst l := by
  rw [dedupKeepFirst, ddfAux_append]
  rw [ddfAux_eq_nil l (l ++ []) (fun x hx => by simpa using hx)]
  simp [dedupKeepFirst]

theorem qclose_refl (a : ℚ) : qclose a a = true := by
  rw [qclose, decide_eq_true_eq, sub_self, abs_zero]
  positivity

theorem allcloseRow_refl (r : List ℚ) : allcloseRow r r = true := by
  rw [allcloseRow, List.all_eq_true]
  intro p hp
  have : p.1 = p.2 := by
    induction r with
    | nil => simp at hp
    | cons a l ih =>
      rcases List.mem_cons.mp hp with h1 | h1
      · rw [h1]
      · exact ih h1
  rw [this]
  exact qclose_refl _

theorem allcloseMat_refl (m : List (List ℚ)) : allcloseMat m m = true := by
  rw [allcloseMat, List.all_eq_true]
  intro p hp
  have : p.1 = p.2 := by
    induction m with
    | nil => simp at hp
    | cons a l ih =>
      rcases List.mem_cons.mp hp with h1 | h1
      · rw [h1]
      · exact ih h1
  rw [this]
  exact allcloseRow_refl _

theorem reproj_length (oldCols : List String) (row : List ℚ) (newCols : List String) :
    (reproj oldCols row newCols).length = newCols.length := by
  rw [reproj, List.length_map]

theorem dictGet?_zip_not_mem (l : List String) (r : List ℚ) (c : String)
    (h : c ∉ l) : dictGet? (l.zip r) c = none := by
  induction l generalizing r with
  | nil => rfl
  | cons a l ih =>
    cases r with
    | nil => rfl
    | cons v r =>
      have hac : (a == c) = false := by
        simp only [beq_eq_false_iff_ne, ne_eq]
        intro hc
        exact h (hc ▸ List.mem_cons_self _ _)
      rw [List.zip_cons_cons, dictGet?, List.find?]
      simp only [hac]
      exact ih r (fun hc => h (List.mem_cons_of_mem _ hc))

theorem dictGet?_zip_map (l : List String) (f : String → ℚ) (c : String) :
    dictGet? (l.zip (l.map f)) c = if c ∈ l then some (f c) else none := by
  induction l with
  | nil => rfl
  | cons a l ih =>
    rw [List.map_cons, List.zip_cons_cons]
    by_cases hac : a = c
    · rw [dictGet?, List.find?]
      have : (a == c) = true := by simpa using hac
      simp only [this]
      rw [if_pos (hac ▸ List.mem_cons_self _ _), hac]
      rfl
    · rw [dictGet?, List.find?]
      have : (a == c) = false := by simpa using hac
      simp only [this]
      rw [show (List.find? (fun p => p.1 == c) (l.zip (l.map f))).map (fun p => p.2) =
            dictGet? (l.zip (l.map f)) c from rfl, ih]
      by_cases hcl : c ∈ l
      · rw [if_pos hcl, if_pos (List.mem_cons_of_mem _ hcl)]
      · rw [if_neg hcl, if_neg (fun hc => (List.mem_cons.mp hc).elim (fun h => hac h.symm) hcl)]

theorem reproj_comp (cols1 cols2 cols3 : List String) (r : List ℚ)
    (h12 : ∀ c ∈ cols1, c ∈ cols2) :
    reproj cols2 (reproj cols1 r cols2) cols3 = reproj cols1 r cols3 := by
  rw [reproj, reproj, reproj]
  refine List.map_congr_left fun c _ => ?_
  rw [dictGet?_zip_map]
  by_cases hc : c ∈ cols2
  · rw [if_pos hc]
    rfl
  · rw [if_neg hc]
    rw [dictGet?_zip_not_mem cols1 r c (fun hc1 => hc (h12 c hc1))]

theorem reproj_self (cols : List String) (r : List ℚ)
    (hn : cols.Nodup) (hl : r.length = cols.length) : reproj cols r cols = r := by
  induction cols generalizing r with
  | nil =>
    cases r with
    | nil => rfl
    | cons v r => simp at hl
  | cons a cols ih =>
    cases r with
    | nil => simp at hl
    | cons v r =>
      rw [reproj, List.map_cons]
      have h1 : dictGet? ((a :: cols).zip (v :: r)) a = some v := by
        rw [List.zip_cons_cons, dictGet?, List.find?]
        simp
      rw [List.zip_cons_cons] at h1 ⊢
      rw [h1]
      have h2 : List.map (fun c => (dictGet? ((a, v) :: cols.zip r) c).getD 0) cols =
          List.map (fun c => (dictGet? (cols.zip r) c).getD 0) cols := by
        refine List.map_congr_left fun c hc => ?_
        have hac : (a == c) = false := by
          simp only [beq_eq_false_iff_ne, ne_eq]
          intro h
          exact (List.nodup_cons.mp hn).1 (h ▸ hc)
        rw [dictGet?, List.find?]
        simp only [hac]
        rfl
      rw [h2]
      have h3 := ih r (List.nodup_cons.mp hn).2 (by simpa using hl)
      rw [reproj] at h3
      rw [h3]
      rfl

/-! ### Canonical-order helpers -/

theorem pairwise_lt_of_le_nodup [LinearOrder κ] (key : α → κ) (l : List α)
    (hle : l.Pairwise (fun x y => key x ≤ key y)) (hn : (l.map key).Nodup) :
    l.Pairwise (fun x y => key x < key y) :=
  (hle.and (List.pairwise_map.mp hn)).imp (fun h => lt_of_le_of_ne h.1 h.2)

theorem sortByKey_eq_of_perm_nodup [LinearOrder κ] (key : α → κ) (l1 l2 : List α)
    (hp : l1.Perm l2) (hn : (l1.map key).Nodup) :
    sortByKey key l1 = sortByKey key l2 := by
  haveI : IsAntisymm α (fun x y => key x < key y) :=
    ⟨fun a b h1 h2 => absurd (lt_trans h1 h2) (lt_irrefl _)⟩
  have hperm : (sortByKey key l1).Perm (sortByKey key l2) :=
    ((sortByKey_perm key l1).trans hp).trans (sortByKey_perm key l2).symm
  have hn1 : ((sortByKey key l1).map key).Nodup :=
    (((sortByKey_perm key l1).map key).nodup_iff).mpr hn
  have hn2 : ((sortByKey key l2).map key).Nodup :=
    (((sortByKey_perm key l2).map key).nodup_iff).mpr ((hp.map key).nodup_iff.mp hn)
  exact List.eq_of_perm_of_sorted hperm
    (pairwise_lt_of_le_nodup key _ (pairwise_sortByKey key l1) hn1)
    (pairwise_lt_of_le_nodup key _ (pairwise_sortByKey key l2) hn2)

theorem sortByKey_sorted_eq_self [LinearOrder κ] (key : α → κ) (l : List α)
    (hs : l.Pairwise (fun x y => key x ≤ key y)) (hn : (l.map key).Nodup) :
    sortByKey key l = l := by
  haveI : IsAntisymm α (fun x y => key x < key y) :=
    ⟨fun a b h1 h2 => absurd (lt_trans h1 h2) (lt_irrefl _)⟩
  have hn1 : ((sortByKey key l).map key).Nodup :=
    (((sortByKey_perm key l).map key).nodup_iff).mpr hn
  exact List.eq_of_perm_of_sorted (sortByKey_perm key l)
    (pairwise_lt_of_le_nodup key _ (pairwise_sortByKey key l) hn1)
    (pairwise_lt_of_le_nodup key l hs hn)

/-- Sorted-row canonicalization: two row multisets that agree as multisets
have the same `sort_values` image (rows carry a linear order, so no
distinctness is needed). -/
theorem sortRows_eq_of_perm (m1 m2 : List (List ℚ)) (hp : m1.Perm m2) :
    sortByKey (fun r => r) m1 = sortByKey (fun r => r) m2 := by
  haveI : IsAntisymm (List ℚ) (fun x y => x ≤ y) := ⟨fun a b h1 h2 => le_antisymm h1 h2⟩
  have hperm : (sortByKey (fun r => r) m1).Perm (sortByKey (fun r => r) m2) :=
    ((sortByKey_perm _ m1).trans hp).trans (sortByKey_perm _ m2).symm
  exact List.eq_of_perm_of_sorted hperm (pairwise_sortByKey _ m1) (pairwise_sortByKey _ m2)

theorem string_toList_inj (a b : String) (h : a.toList = b.toList) : a = b := by
  cases a
  cases b
  exact congrArg String.mk (by simpa [String.toList] using h)

theorem nodup_matKey_of_inchikey (l : List Material)
    (h : (l.map (fun m => m.inchikey)).Nodup) : (l.map matKey).Nodup := by
  have heq : l.map matKey = (l.map (fun m => m.inchikey)).map String.toList := by
    rw [List.map_map]
    rfl
  rw [heq]
  exact h.map (fun a b hab => string_toList_inj a b hab)

theorem combine_spaceArg_def (s1 s2 : SamplerConvexHull) :
    (s1.combine s2).spaceArg =
      sortByKey matKey (dedupKeepFirst (s1.spaceArg ++ s2.spaceArg)) := rfl

theorem combine_dfCols_def (s1 s2 : SamplerConvexHull) :
    (s1.combine s2).dfCols = (s1.combine s2).spaceArg.map (fun m => m.inchikey) := rfl

theorem combine_dfRows_def (s1 s2 : SamplerConvexHull) :
    (s1.combine s2).dfRows = dedupKeepFirst
      (s1.dfRowsSorted.map (fun r => reproj s1.dfCols r (s1.combine s2).dfCols) ++
        s2.dfRowsSorted.map (fun r => reproj s2.dfCols r (s1.combine s2).dfCols)) := rfl

theorem combine_spaceArg_toFinset (s1 s2 : SamplerConvexHull) :
    (s1.combine s2).spaceArg.toFinset = s1.spaceArg.toFinset ∪ s2.spaceArg.toFinset := by
  rw [combine_spaceArg_def,
    List.toFinset_eq_of_perm _ _ (sortByKey_perm _ _), toFinset_dedupKeepFirst,
    List.toFinset_append]

theorem combine_space_nodup_inchikey (s1 s2 : SamplerConvexHull)
    (hc : InvCompat (s1.spaceArg ++ s2.spaceArg)) :
    ((s1.combine s2).spaceArg.map (fun m => m.inchikey)).Nodup := by
  rw [combine_spaceArg_def]
  have hnd2 : (sortByKey matKey
      (dedupKeepFirst (s1.spaceArg ++ s2.spaceArg))).Nodup :=
    (sortByKey_perm _ _).nodup_iff.mpr (dedupKeepFirst_nodup _)
  refine List.Nodup.map_on ?_ hnd2
  intro x hx y hy hxy
  have hx2 : x ∈ s1.spaceArg ++ s2.spaceArg :=
    (mem_dedupKeepFirst _ _).mp ((sortByKey_perm _ _).mem_iff.mp hx)
  have hy2 : y ∈ s1.spaceArg ++ s2.spaceArg :=
    (mem_dedupKeepFirst _ _).mp ((sortByKey_perm _ _).mem_iff.mp hy)
  exact hc x hx2 y hy2 hxy

theorem combine_spaceArg_sorted (s1 s2 : SamplerConvexHull) :
    (s1.combine s2).spaceArg.Pairwise (fun x y => matKey x ≤ matKey y) := by
  rw [combine_spaceArg_def]
  exact pairwise_sortByKey _ _

theorem combine_space_eq_spaceArg (s1 s2 : SamplerConvexHull)
    (hc : InvCompat (s1.spaceArg ++ s2.spaceArg)) :
    (s1.combine s2).space = (s1.combine s2).spaceArg :=
  sortByKey_sorted_eq_self _ _ (combine_spaceArg_sorted s1 s2)
    (nodup_matKey_of_inchikey _ (combine_space_nodup_inchikey s1 s2 hc))

theorem combine_WF (s1 s2 : SamplerConvexHull) (h1 : s1.WF) (h2 : s2.WF)
    (hc : InvCompat (s1.spaceArg ++ s2.spaceArg)) : (s1.combine s2).WF := by
  refine ⟨?_, combine_space_nodup_inchikey s1 s2 hc, ?_, ?_, ?_⟩
  · obtain ⟨a, ha⟩ := List.exists_mem_of_ne_nil s1.spaceArg h1.1
    have hmem : a ∈ (s1.combine s2).spaceArg := by
      rw [combine_spaceArg_def]
      exact (sortByKey_perm _ _).mem_iff.mpr
        ((mem_dedupKeepFirst _ _).mpr (List.mem_append_left _ ha))
    exact List.ne_nil_of_mem hmem
  · rw [combine_space_eq_spaceArg s1 s2 hc]
    exact combine_dfCols_def s1 s2
  · intro r hr
    rw [combine_dfRows_def] at hr
    have hr2 := (mem_dedupKeepFirst _ _).mp hr
    rcases List.mem_append.mp hr2 with hmem | hmem
    · obtain ⟨r0, _, hpr⟩ := List.mem_map.mp hmem
      rw [← hpr, reproj_length]
    · obtain ⟨r0, _, hpr⟩ := List.mem_map.mp hmem
      rw [← hpr, reproj_length]
  · rw [combine_dfRows_def]
    exact dedupKeepFirst_nodup _

theorem combine_rows_toFinset (s1 s2 : SamplerConvexHull) :
    (s1.combine s2).dfRows.toFinset =
      (s1.dfRows.map (fun r => reproj s1.dfCols r (s1.combine s2).dfCols)).toFinset ∪
      (s2.dfRows.map (fun r => reproj s2.dfCols r (s1.combine s2).dfCols)).toFinset := by
  rw [combine_dfRows_def, toFinset_dedupKeepFirst, List.toFinset_append]
  rw [List.toFinset_eq_of_perm
      (s1.dfRowsSorted.map (fun r => reproj s1.dfCols r (s1.combine s2).dfCols))
      (s1.dfRows.map (fun r => reproj s1.dfCols r (s1.combine s2).dfCols))
      ((sortByKey_perm _ _).map _),
    List.toFinset_eq_of_perm
      (s2.dfRowsSorted.map (fun r => reproj s2.dfCols r (s1.combine s2).dfCols))
      (s2.dfRows.map (fun r => reproj s2.dfCols r (s1.combine s2).dfCols))
      ((sortByKey_perm _ _).map _)]

theorem cols_subset_combine_left (s1 s2 : SamplerConvexHull) (h1 : s1.WF) :
    ∀ c ∈ s1.dfCols, c ∈ (s1.combine s2).dfCols := by
  intro c hcol
  rw [h1.2.2.1] at hcol
  obtain ⟨m, hm, hmk⟩ := List.mem_map.mp hcol
  have hm2 : m ∈ s1.spaceArg := (sortByKey_perm _ _).mem_iff.mp hm
  have hm3 : m ∈ (s1.combine s2).spaceArg := by
    rw [combine_spaceArg_def]
    exact (sortByKey_perm _ _).mem_iff.mpr
      ((mem_dedupKeepFirst _ _).mpr (List.mem_append_left _ hm2))
  rw [combine_dfCols_def]
  exact hmk ▸ List.mem_map_of_mem _ hm3

theorem cols_subset_combine_right (s1 s2 : SamplerConvexHull) (h2 : s2.WF) :
    ∀ c ∈ s2.dfCols, c ∈ (s1.combine s2).dfCols := by
  intro c hcol
  rw [h2.2.2.1] at hcol
  obtain ⟨m, hm, hmk⟩ := List.mem_map.mp hcol
  have hm2 : m ∈ s2.spaceArg := (sortByKey_perm _ _).mem_iff.mp hm
  have hm3 : m ∈ (s1.combine s2).spaceArg := by
    rw [combine_spaceArg_def]
    exact (sortByKey_perm _ _).mem_iff.mpr
      ((mem_dedupKeepFirst _ _).mpr (List.mem_append_right _ hm2))
  rw [combine_dfCols_def]
  exact hmk ▸ List.mem_map_of_mem _ hm3

theorem eqHull_of_parts (s1 s2 : SamplerConvexHull)
    (hsp : s1.space = s2.space) (hcols : s1.dfCols.length = s2.dfCols.length)
    (hrows : s1.dfRowsSorted = s2.dfRowsSorted) : s1.eqHull s2 = true := by
  rw [SamplerConvexHull.eqHull, hsp, hrows]
  simp [hcols, allcloseMat_refl]

theorem ddf_nodup_inchikey_of (ms : List Material)
    (hc : ∀ x ∈ ms, ∀ y ∈ ms, x.inchikey = y.inchikey → x = y) :
    ((dedupKeepFirst ms).map (fun m => m.inchikey)).Nodup := by
  refine List.Nodup.map_on ?_ (dedupKeepFirst_nodup _)
  intro x hx y hy hxy
  exact hc x ((mem_dedupKeepFirst _ _).mp hx) y ((mem_dedupKeepFirst _ _).mp hy) hxy

theorem WF.invCompat_self (A : SamplerConvexHull) (hA : A.WF) :
    InvCompat (A.spaceArg ++ A.spaceArg) := by
  intro x hx y hy hxy
  have hx2 : x ∈ A.spaceArg := by
    rcases List.mem_append.mp hx with h | h <;> exact h
  have hy2 : y ∈ A.spaceArg := by
    rcases List.mem_append.mp hy with h | h <;> exact h
  exact List.inj_on_of_nodup_map hA.2.1 hx2 hy2 hxy

theorem combine_self_eqHull (A : SamplerConvexHull) (hA : A.WF) :
    (A.combine A).eqHull A = true := by
  have hc := WF.invCompat_self A hA
  have hspArg : (A.combine A).spaceArg = A.space := by
    rw [combine_spaceArg_def, dedupKeepFirst_append_self,
      dedupKeepFirst_eq_self _ (List.Nodup.of_map _ hA.2.1)]
    rfl
  have hspace : (A.combine A).space = A.space := by
    rw [combine_space_eq_spaceArg _ _ hc, hspArg]
  have hcols : (A.combine A).dfCols = A.dfCols := by
    rw [combine_dfCols_def, hspArg, ← hA.2.2.1]
  have hcolsnodup : A.dfCols.Nodup := by
    rw [hA.2.2.1]
    exact ((sortByKey_perm _ _).map _).nodup_iff.mpr hA.2.1
  have hrows : (A.combine A).dfRows = A.dfRowsSorted := by
    rw [combine_dfRows_def, hcols]
    have hproj : ∀ r ∈ A.dfRowsSorted, reproj A.dfCols r A.dfCols = r := by
      intro r hr
      exact reproj_self _ _ hcolsnodup
        (hA.2.2.2.1 r ((sortByKey_perm _ _).mem_iff.mp hr))
    have hmapid : A.dfRowsSorted.map (fun r => reproj A.dfCols r A.dfCols) =
        A.dfRowsSorted := by
      have h1 : A.dfRowsSorted.map (fun r => reproj A.dfCols r A.dfCols) =
          A.dfRowsSorted.map (fun r => r) :=
        List.map_congr_left (fun r hr => hproj r hr)
      rw [h1, List.map_id']
    rw [hmapid, dedupKeepFirst_append_self]
    exact dedupKeepFirst_eq_self _ ((sortByKey_perm _ _).nodup_iff.mpr hA.2.2.2.2)
  have hsorted2 : (A.combine A).dfRowsSorted = A.dfRowsSorted := by
    rw [SamplerConvexHull.dfRowsSorted, hrows]
    exact sortRows_eq_of_perm _ _ (sortByKey_perm _ _)
  exact eqHull_of_parts _ _ hspace (by rw [hcols]) hsorted2

theorem combine_comm_eqHull (A B : SamplerConvexHull) (hA : A.WF) (hB : B.WF)
    (hc : InvCompat (A.spaceArg ++ B.spaceArg)) :
    (A.combine B).eqHull (B.combine A) = true := by
  have hc2 : InvCompat (B.spaceArg ++ A.spaceArg) := by
    intro x hx y hy hxy
    refine hc x ?_ y ?_ hxy
    · rcases List.mem_append.mp hx with h | h
      · exact List.mem_append_right _ h
      · exact List.mem_append_left _ h
    · rcases List.mem_append.mp hy with h | h
      · exact List.mem_append_right _ h
      · exact List.mem_append_left _ h
  have hspArg : (A.combine B).spaceArg = (B.combine A).spaceArg := by
    rw [combine_spaceArg_def, combine_spaceArg_def]
    refine sortByKey_eq_of_perm_nodup _ _ _ ?_ ?_
    · refine List.perm_of_nodup_nodup_toFinset_eq
        (dedupKeepFirst_nodup _) (dedupKeepFirst_nodup _) ?_
      rw [toFinset_dedupKeepFirst, toFinset_dedupKeepFirst,
        List.toFinset_append, List.toFinset_append]
      exact Finset.union_comm _ _
    · exact nodup_matKey_of_inchikey _ (ddf_nodup_inchikey_of _ hc)
  have hspace : (A.combine B).space = (B.combine A).space := by
    rw [combine_space_eq_spaceArg _ _ hc, combine_space_eq_spaceArg _ _ hc2, hspArg]
  have hcols : (A.combine B).dfCols = (B.combine A).dfCols := by
    rw [combine_dfCols_def, combine_dfCols_def, hspArg]
  have hperm : (A.combine B).dfRows.Perm ((B.combine A).dfRows) := by
    refine List.perm_of_nodup_nodup_toFinset_eq ?_ ?_ ?_
    · rw [combine_dfRows_def]; exact dedupKeepFirst_nodup _
    · rw [combine_dfRows_def]; exact dedupKeepFirst_nodup _
    · rw [combine_rows_toFinset, combine_rows_toFinset, hcols]
      exact Finset.union_comm _ _
  have hrows : (A.combine B).dfRowsSorted = (B.combine A).dfRowsSorted :=
    sortRows_eq_of_perm _ _ hperm
  exact eqHull_of_parts _ _ hspace (by rw [hcols]) hrows

theorem toFinset_map_list [DecidableEq γ] [DecidableEq β] (f : γ → β) (l : List γ) :
    (l.map f).toFinset = l.toFinset.image f := by
  induction l with
  | nil => simp
  | cons a l ih => simp [ih]

theorem mem_combine_spaceArg_iff (s1 s2 : SamplerConvexHull) (x : Material) :
    x ∈ (s1.combine s2).spaceArg ↔ x ∈ s1.spaceArg ++ s2.spaceArg := by
  rw [combine_spaceArg_def]
  constructor
  · intro h
    exact (mem_dedupKeepFirst _ _).mp ((sortByKey_perm _ _).mem_iff.mp h)
  · intro h
    exact (sortByKey_perm _ _).mem_iff.mpr ((mem_dedupKeepFirst _ _).mpr h)

theorem combine_assoc_eqHull (A B C : SamplerConvexHull)
    (hA : A.WF) (hB : B.WF) (hC : C.WF)
    (hc : InvCompat (A.spaceArg ++ B.spaceArg ++ C.spaceArg)) :
    ((A.combine B).combine C).eqHull (A.combine (B.combine C)) = true := by
  have hmemAB : ∀ x ∈ A.spaceArg ++ B.spaceArg,
      x ∈ A.spaceArg ++ B.spaceArg ++ C.spaceArg := by
    intro x hx
    simp only [List.mem_append] at hx ⊢
    tauto
  have hmemBC : ∀ x ∈ B.spaceArg ++ C.spaceArg,
      x ∈ A.spaceArg ++ B.spaceArg ++ C.spaceArg := by
    intro x hx
    simp only [List.mem_append] at hx ⊢
    tauto
  have hcAB : InvCompat (A.spaceArg ++ B.spaceArg) := fun x hx y hy hxy =>
    hc x (hmemAB x hx) y (hmemAB y hy) hxy
  have hcBC : InvCompat (B.spaceArg ++ C.spaceArg) := fun x hx y hy hxy =>
    hc x (hmemBC x hx) y (hmemBC y hy) hxy
  have hmemL : ∀ x ∈ (A.combine B).spaceArg ++ C.spaceArg,
      x ∈ A.spaceArg ++ B.spaceArg ++ C.spaceArg := by
    intro x hx
    rcases List.mem_append.mp hx with h | h
    · exact hmemAB x ((mem_combine_spaceArg_iff A B x).mp h)
    · simp only [List.mem_append]
      tauto
  have hmemR : ∀ x ∈ A.spaceArg ++ (B.combine C).spaceArg,
      x ∈ A.spaceArg ++ B.spaceArg ++ C.spaceArg := by
    intro x hx
    rcases List.mem_append.mp hx with h | h
    · simp only [List.mem_append]
      tauto
    · exact hmemBC x ((mem_combine_spaceArg_iff B C x).mp h)
  have hcL : InvCompat ((A.combine B).spaceArg ++ C.spaceArg) := fun x hx y hy hxy =>
    hc x (hmemL x hx) y (hmemL y hy) hxy
  have hcR : InvCompat (A.spaceArg ++ (B.combine C).spaceArg) := fun x hx y hy hxy =>
    hc x (hmemR x hx) y (hmemR y hy) hxy
  have hspArg : ((A.combine B).combine C).spaceArg = (A.combine (B.combine C)).spaceArg := by
    rw [combine_spaceArg_def ((A.combine B)) C, combine_spaceArg_def A (B.combine C)]
    refine sortByKey_eq_of_perm_nodup _ _ _ ?_ ?_
    · refine List.perm_of_nodup_nodup_toFinset_eq
        (dedupKeepFirst_nodup _) (dedupKeepFirst_nodup _) ?_
      rw [toFinset_dedupKeepFirst, toFinset_dedupKeepFirst,
        List.toFinset_append, List.toFinset_append,
        combine_spaceArg_toFinset, combine_spaceArg_toFinset]
      exact Finset.union_assoc _ _ _
    · exact nodup_matKey_of_inchikey _ (ddf_nodup_inchikey_of _ hcL)
  have hspace : ((A.combine B).combine C).space = (A.combine (B.combine C)).space := by
    rw [combine_space_eq_spaceArg _ _ hcL, combine_space_eq_spaceArg _ _ hcR, hspArg]
  have hcols : ((A.combine B).combine C).dfCols = (A.combine (B.combine C)).dfCols := by
    rw [combine_dfCols_def, combine_dfCols_def, hspArg]
  have hsubAB : ∀ c ∈ A.dfCols, c ∈ (A.combine B).dfCols :=
    cols_subset_combine_left A B hA
  have hsubBA : ∀ c ∈ B.dfCols, c ∈ (A.combine B).dfCols :=
    cols_subset_combine_right A B hB
  have hsubBC : ∀ c ∈ B.dfCols, c ∈ (B.combine C).dfCols :=
    cols_subset_combine_left B C hB
  have hsubCB : ∀ c ∈ C.dfCols, c ∈ (B.combine C).dfCols :=
    cols_subset_combine_right B C hC
  have hperm : ((A.combine B).combine C).dfRows.Perm ((A.combine (B.combine C)).dfRows) := by
    refine List.perm_of_nodup_nodup_toFinset_eq ?_ ?_ ?_
    · rw [combine_dfRows_def]; exact dedupKeepFirst_nodup _
    · rw [combine_dfRows_def]; exact dedupKeepFirst_nodup _
    · rw [combine_rows_toFinset (A.combine B) C, combine_rows_toFinset A (B.combine C)]
      rw [toFinset_map_list, toFinset_map_list, toFinset_map_list, toFinset_map_list]
      rw [combine_rows_toFinset A B, combine_rows_toFinset B C]
      rw [Finset.image_union, Finset.image_union]
      rw [toFinset_map_list, toFinset_map_list, toFinset_map_list, toFinset_map_list]
      rw [Finset.image_image, Finset.image_image, Finset.image_image, Finset.image_image]
      have e1 : ((fun r => reproj (A.combine B).dfCols r (((A.combine B).combine C).dfCols)) ∘
          (fun r => reproj A.dfCols r (A.combine B).dfCols)) =
          (fun r => reproj A.dfCols r (((A.combine B).combine C).dfCols)) :=
        funext fun r => reproj_comp _ _ _ r hsubAB
      have e2 : ((fun r => reproj (A.combine B).dfCols r (((A.combine B).combine C).dfCols)) ∘
          (fun r => reproj B.dfCols r (A.combine B).dfCols)) =
          (fun r => reproj B.dfCols r (((A.combine B).combine C).dfCols)) :=
        funext fun r => reproj_comp _ _ _ r hsubBA
      have e3 : ((fun r => reproj (B.combine C).dfCols r ((A.combine (B.combine C)).dfCols)) ∘
          (fun r => reproj B.dfCols r (B.combine C).dfCols)) =
          (fun r => reproj B.dfCols r ((A.combine (B.combine C)).dfCols)) :=
        funext fun r => reproj_comp _ _ _ r hsubBC
      have e4 : ((fun r => reproj (B.combine C).dfCols r ((A.combine (B.combine C)).dfCols)) ∘
          (fun r => reproj C.dfCols r (B.combine C).dfCols)) =
          (fun r => reproj C.dfCols r ((A.combine (B.combine C)).dfCols)) :=
        funext fun r => reproj_comp _ _ _ r hsubCB
      rw [e1, e2, e3, e4, hcols]
      exact Finset.union_assoc _ _ _
  have hrows : ((A.combine B).combine C).dfRowsSorted =
      (A.combine (B.combine C)).dfRowsSorted :=
    sortRows_eq_of_perm _ _ hperm
  exact eqHull_of_parts _ _ hspace (by rw [hcols]) hrows

/-- C10: under the class invariants (`SamplerConvexHull.WF`, which records the
asserts of the `space`/`df` properties and the dedup/distinctness facts that
`from_reagent_set` establishes and `combine` maintains) and a single shared
material inventory (`InvCompat`), `combine(A, A)` equals `A` under the
canonical-order hull equality (dedup removes the doubled rows), and `combine`
is commutative and associative under that same equality. -/
theorem combine_idem_comm_assoc (A B C : SamplerConvexHull)
    (hA : A.WF) (hB : B.WF) (hC : C.WF)
    (hc : InvCompat (A.spaceArg ++ B.spaceArg ++ C.spaceArg)) :
    (A.combine A).eqHull A = true ∧
    (A.combine B).eqHull (B.combine A) = true ∧
    ((A.combine B).combine C).eqHull (A.combine (B.combine C)) = true := by
  refine ⟨combine_self_eqHull A hA, ?_, combine_assoc_eqHull A B C hA hB hC hc⟩
  refine combine_comm_eqHull A B hA hB ?_
  intro x hx y hy hxy
  refine hc x ?_ y ?_ hxy
  · simp only [List.mem_append] at hx ⊢
    tauto
  · simp only [List.mem_append] at hy ⊢
    tauto

theorem combine_idem_comm_assoc_witness :
    (cexHullA.WF ∧ cexHullB.WF ∧ cexHullC.WF ∧
      InvCompat (cexHullA.spaceArg ++ cexHullB.spaceArg ++ cexHullC.spaceArg)) ∧
    ((cexHullA.combine cexHullA).eqHull cexHullA = true ∧
      (cexHullA.combine cexHullB).eqHull (cexHullB.combine cexHullA) = true ∧
      ((cexHullA.combine cexHullB).combine cexHullC).eqHull
        (cexHullA.combine (cexHullB.combine cexHullC)) = true) :=
  ⟨⟨by decide, by decide, by decide, by decide⟩,
    combine_idem_comm_assoc cexHullA cexHullB cexHullC
      (by decide) (by decide) (by decide) (by decide)⟩

/-- C7 counterexample: a constructed reaction whose total dispensed volume is
exactly 1e-5 L.  The source check `total_volume < 1e-5` ACCEPTS it, refuting
both "rejects exactly when total ≤ 1e-5 L" and the invariant "total dispensed
volume exceeds 1e-5 L". -/
theorem total_volume_boundary_cex :
    checkTotalVolume cexReaction7 = Except.ok cexReaction7 ∧
    cexReaction7.total_volume = 1e-5 ∧
    ¬ (1e-5 : ℚ) < cexReaction7.total_volume := by
  refine ⟨?_, by decide, by decide⟩
  rw [checkTotalVolume, if_neg (by decide)]

/-- C7 (amended): the rejection boundary is strict — `record_to_reaction`'s
final check rejects a constructed reaction exactly when its total dispensed
volume is < 1e-5 L, and every reaction it lets through satisfies
total_volume ≥ 1e-5 L. -/
theorem total_volume_check_iff (reaction : Reaction) :
    (checkTotalVolume reaction = Except.ok reaction ↔
      (1e-5 : ℚ) ≤ reaction.total_volume) ∧
    ((∃ m, checkTotalVolume reaction = Except.error (RTRErr.parser m)) ↔
      reaction.total_volume < 1e-5) := by
  by_cases h : reaction.total_volume < 1e-5
  · constructor
    · rw [checkTotalVolume, if_pos h]
      constructor
      · intro hc
        exact Except.noConfusion hc
      · intro hc
        exact absurd h (not_lt.mpr hc)
    · rw [checkTotalVolume, if_pos h]
      exact ⟨fun _ => h, fun _ => ⟨_, rfl⟩⟩
  · constructor
    · rw [checkTotalVolume, if_neg h]
      exact ⟨fun _ => not_lt.mp h, fun _ => rfl⟩
    · rw [checkTotalVolume, if_neg h]
      constructor
      · rintro ⟨m, hm⟩
        exact Except.noConfusion hm
      · intro hc
        exact absurd hc h

theorem find?_map_replace (rest : List (String × α)) (k k2 : String) (v : α)
    (h : (k == k2) = false) :
    List.find? (fun q => q.1 == k2) (rest.map (fun q => if q.1 == k then (k, v) else q)) =
    List.find? (fun q => q.1 == k2) rest := by
  induction rest with
  | nil => rfl
  | cons q rest ih =>
    simp only [List.map_cons]
    by_cases hq : (q.1 == k) = true
    · have hqk : q.1 = k := by simpa using hq
      have hq2 : (q.1 == k2) = false := by rw [hqk]; exact h
      rw [if_pos hq]
      simp only [List.find?, h, hq2]
      exact ih
    · rw [if_neg hq]
      by_cases hq2 : (q.1 == k2) = true
      · simp only [List.find?, hq2]
      · have hq2f : (q.1 == k2) = false := by simpa using hq2
        simp only [List.find?, hq2f]
        exact ih

theorem find?_map_replace_same (d : List (String × α)) (k : String) (v : α)
    (hany : d.any (fun p => p.1 == k) = true) :
    List.find? (fun q => q.1 == k)
      (d.map (fun q => if q.1 == k then (k, v) else q)) = some (k, v) := by
  induction d with
  | nil => simp at hany
  | cons q rest ih =>
    simp only [List.map_cons]
    by_cases hq : (q.1 == k) = true
    · rw [if_pos hq]
      simp only [List.find?, beq_self_eq_true]
    · have hqf : (q.1 == k) = false := by simpa using hq
      simp only [List.any_cons, hqf, Bool.false_or] at hany
      rw [if_neg hq]
      simp only [List.find?, hqf]
      exact ih hany

theorem dictGet?_dictInsert_same (d : List (String × α)) (k : String) (v : α) :
    dictGet? (dictInsert d k v) k = some v := by
  by_cases hany : d.any (fun p => p.1 == k) = true
  · rw [dictInsert, if_pos hany, dictGet?, find?_map_replace_same d k v hany]
    rfl
  · rw [dictInsert, if_neg hany, dictGet?, List.find?_append]
    have hnone : List.find? (fun q => q.1 == k) d = none := by
      rw [List.find?_eq_none]
      intro x hx hpx
      exact hany (List.any_eq_true.mpr ⟨x, hx, hpx⟩)
    rw [hnone]
    simp only [List.find?, beq_self_eq_true, Option.none_or]
    rfl

theorem dictGet?_dictInsert_other (d : List (String × α)) (k k2 : String) (v : α)
    (h : k2 ≠ k) : dictGet? (dictInsert d k v) k2 = dictGet? d k2 := by
  have hbeq : (k == k2) = false := by
    simp only [beq_eq_false_iff_ne, ne_eq]
    exact fun hc => h hc.symm
  by_cases hany : d.any (fun p => p.1 == k) = true
  · rw [dictInsert, if_pos hany, dictGet?, find?_map_replace d k k2 v hbeq]
    rfl
  · rw [dictInsert, if_neg hany, dictGet?, List.find?_append]
    have h2 : List.find? (fun q => q.1 == k2) [(k, v)] = none := by
      simp only [List.find?, hbeq]
    rw [h2, Option.or_none]
    rfl

theorem mem_dictInsert (d : List (String × α)) (k : String) (v : α) (p : String × α)
    (hp : p ∈ dictInsert d k v) : p = (k, v) ∨ p ∈ d := by
  by_cases hany : d.any (fun q => q.1 == k) = true
  · rw [dictInsert, if_pos hany] at hp
    obtain ⟨q, hq, hfq⟩ := List.mem_map.mp hp
    by_cases hqk : (q.1 == k) = true
    · rw [if_pos hqk] at hfq
      exact Or.inl hfq.symm
    · rw [if_neg hqk] at hfq
      exact Or.inr (hfq ▸ hq)
  · rw [dictInsert, if_neg hany] at hp
    rcases List.mem_append.mp hp with h1 | h1
    · exact Or.inr h1
    · exact Or.inl (List.mem_singleton.mp h1)

theorem dictGet?_mem (d : List (String × α)) (k : String) (v : α)
    (h : dictGet? d k = some v) : ∃ k2, (k2, v) ∈ d := by
  rw [dictGet?] at h
  cases hf : List.find? (fun p => p.1 == k) d with
  | none => rw [hf] at h; simp at h
  | some p =>
    rw [hf] at h
    refine ⟨p.1, ?_⟩
    have hm := List.mem_of_find?_eq_some hf
    have hpv : p.2 = v := by simpa using h
    rw [← hpv]
    simpa using hm

theorem aggregateMmolGo_spec (rec : Record) :
    ∀ (d0 d : List (String × Value)),
      (∀ p ∈ rec, p.2.isNum = true) →
      (∀ p ∈ d0, p.2.isNum = true) →
      aggregateMmolGo rec d0 = Except.ok d →
      ∀ ik, dictGetNum? d ik =
        (match dictGetNum? d0 ik with
        | some q0 => some (q0 + (mmolContribs rec ik).sum)
        | Option.none =>
          if mmolContribs rec ik = [] then Option.none
          else some (mmolContribs rec ik).sum) := by
  induction rec with
  | nil =>
    intro d0 d _ _ h ik
    rw [aggregateMmolGo] at h
    injection h with h
    subst h
    simp only [mmolContribs, List.filterMap_nil, List.sum_nil]
    cases hd : dictGetNum? d0 ik <;> simp
  | cons p rest ih =>
    intro d0 d hnum hd0 h ik
    obtain ⟨k, v⟩ := p
    have hv : v.isNum = true := hnum (k, v) (List.mem_cons_self _ _)
    obtain ⟨q, rfl⟩ : ∃ q, v = Value.num q := by
      cases v with
      | num q => exact ⟨q, rfl⟩
      | str s => simp [Value.isNum] at hv
      | na => simp [Value.isNum] at hv
    have hnumrest : ∀ p ∈ rest, p.2.isNum = true :=
      fun p hp => hnum p (List.mem_cons_of_mem _ hp)
    rw [aggregateMmolGo] at h
    cases hext : extractMmolKey k with
    | error e =>
      rw [hext] at h
      simp [bind, Except.bind] at h
    | ok ik0 =>
      rw [hext] at h
      simp only [bind, Except.bind, Value.ltNumE] at h
      have hcontribs : ∀ ik1, mmolContribs ((k, Value.num q) :: rest) ik1 =
          (if ik0 = ik1 ∧ ¬ q < 1e-5 then q :: mmolContribs rest ik1
            else mmolContribs rest ik1) := by
        intro ik1
        by_cases hc : ik0 = ik1 ∧ ¬ q < 1e-5
        · obtain ⟨hc1, hc2⟩ := hc
          simp [mmolContribs, List.filterMap_cons, hext, hc1, not_lt.mp hc2]
        · simp only [mmolContribs, List.filterMap_cons, hext, if_neg hc]
      by_cases hlt : q < 1e-5
      · rw [show (decide (q < 1e-5)) = true from by simpa using hlt] at h
        simp only [if_true] at h
        have hih := ih d0 d hnumrest hd0 h ik
        rw [hcontribs ik, if_neg (fun hc => hc.2 hlt)]
        exact hih
      · rw [show (decide (q < 1e-5)) = false from by simpa using hlt] at h
        simp only [Bool.false_eq_true, if_false] at h
        cases hget : dictGet? d0 ik0 with
        | some v0 =>
          rw [hget] at h
          obtain ⟨k2, hk2⟩ := dictGet?_mem d0 ik0 v0 hget
          have hv0 : v0.isNum = true := hd0 (k2, v0) hk2
          obtain ⟨q0, rfl⟩ : ∃ q0, v0 = Value.num q0 := by
            cases v0 with
            | num q0 => exact ⟨q0, rfl⟩
            | str s => simp [Value.isNum] at hv0
            | na => simp [Value.isNum] at hv0
          simp only [Value.addV, bind, Except.bind] at h
          have hd0' : ∀ p ∈ dictInsert d0 ik0 (Value.num (q0 + q)), p.2.isNum = true := by
            intro p hp
            rcases mem_dictInsert _ _ _ _ hp with h1 | h1
            · rw [h1]; rfl
            · exact hd0 p h1
          have hih := ih _ d hnumrest hd0' h
          by_cases hik : ik = ik0
          · subst hik
            have hins : dictGetNum? (dictInsert d0 ik (Value.num (q0 + q))) ik = some (q0 + q) := by
              rw [dictGetNum?, dictGet?_dictInsert_same]
            have hd0get : dictGetNum? d0 ik = some q0 := by
              rw [dictGetNum?, hget]
            simp [hih ik, hins, hd0get, hcontribs ik, hlt, List.sum_cons, add_assoc]
          · have hik0 : ¬ ik0 = ik := fun hc => hik hc.symm
            have hins : dictGetNum? (dictInsert d0 ik0 (Value.num (q0 + q))) ik =
                dictGetNum? d0 ik := by
              rw [dictGetNum?, dictGet?_dictInsert_other _ _ _ _ hik, ← dictGetNum?]
            simp [hih ik, hins, hcontribs ik, hik0]
        | none =>
          rw [hget] at h
          have hd0' : ∀ p ∈ dictInsert d0 ik0 (Value.num q), p.2.isNum = true := by
            intro p hp
            rcases mem_dictInsert _ _ _ _ hp with h1 | h1
            · rw [h1]; rfl
            · exact hd0 p h1
          have hih := ih _ d hnumrest hd0' h
          by_cases hik : ik = ik0
          · subst hik
            have hins : dictGetNum? (dictInsert d0 ik (Value.num q)) ik = some q := by
              rw [dictGetNum?, dictGet?_dictInsert_same]
            have hd0get : dictGetNum? d0 ik = Option.none := by
              rw [dictGetNum?, hget]
            simp [hih ik, hins, hd0get, hcontribs ik, hlt, List.sum_cons]
          · have hik0 : ¬ ik0 = ik := fun hc => hik hc.symm
            have hins : dictGetNum? (dictInsert d0 ik0 (Value.num q)) ik =
                dictGetNum? d0 ik := by
              rw [dictGetNum?, dictGet?_dictInsert_other _ _ _ _ hik, ← dictGetNum?]
            simp [hih ik, hins, hcontribs ik, hik0]

/-- C6: how the mole aggregation of `record_to_reaction` (parser.py 254-266)
treats its threshold. For a numeric mmol sub-record the aggregated map reads
back, per upper-cased inchikey, exactly the sum of the individual raw column
values that are not below 1e-5 — the cut is applied to each individual raw
value, never to the sum. The raw values are in the columns' native millimole
unit (schema.py line 353 later converts by `mmol * 1e-3`), so expressed in
moles the per-value cutoff is 1e-8 mol, not the 1e-5 mol the specification
states. -/
theorem aggregate_mmol_threshold (mmolRec : Record) (d : List (String × Value))
    (hnum : ∀ p ∈ mmolRec, p.2.isNum = true)
    (h : aggregate_mmol mmolRec = Except.ok d) :
    ∀ ik, dictGetNum? d ik =
      (if mmolContribs mmolRec ik = [] then Option.none
       else some (mmolContribs mmolRec ik).sum) := by
  intro ik
  have hs := aggregateMmolGo_spec mmolRec [] d hnum (by intro p hp; cases hp) h ik
  simpa [dictGetNum?, dictGet?] using hs

/-- C6 witness: on `cexMmolRec` the aggregation succeeds, and the read-back
for the inchikey equals the kept-contribution sum 1/2: the 1/1000000 column
was discarded individually while the kept value contributes in full. -/
theorem aggregate_mmol_threshold_witness :
    dictGetNum? [("AAAAAAAAAAAAAA-UHFFFAOYSA-N", Value.num (1/2))]
        "AAAAAAAAAAAAAA-UHFFFAOYSA-N" =
      (if mmolContribs cexMmolRec "AAAAAAAAAAAAAA-UHFFFAOYSA-N" = [] then Option.none
       else some (mmolContribs cexMmolRec "AAAAAAAAAAAAAA-UHFFFAOYSA-N").sum) :=
  aggregate_mmol_threshold cexMmolRec
    [("AAAAAAAAAAAAAA-UHFFFAOYSA-N", Value.num (1/2))]
    (by decide) (by decide) "AAAAAAAAAAAAAA-UHFFFAOYSA-N"

/-- C6 counterexample: the raw value 1/10000 is in millimoles, i.e.
(1/10000) * 1e-3 = 1e-7 mol, strictly below the claimed 1e-5 mol cutoff, yet
`record_to_reaction`'s aggregation keeps it — the 1e-5 threshold of
parser.py line 261 compares the raw millimole value, not a mole value. -/
theorem mmol_threshold_unit_cex :
    ((1 : ℚ)/10000) * 1e-3 < 1e-5 ∧
    aggregate_mmol [("_raw_mmol_AAAAAAAAAAAAAA-UHFFFAOYSA-N", Value.num (1/10000))] =
      Except.ok [("AAAAAAAAAAAAAA-UHFFFAOYSA-N", Value.num (1/10000))] := by
  exact ⟨by decide, by decide⟩

theorem dictInsertNat_ne_nil (d : List (Nat × α)) (k : Nat) (v : α) :
    dictInsertNat d k v ≠ [] := by
  rw [dictInsertNat]
  by_cases h : d.any (fun p => p.1 == k) = true
  · rw [if_pos h]
    cases d with
    | nil => simp at h
    | cons p rest => simp
  · rw [if_neg h]
    simp

theorem processRM_preserve_ne_nil (rec : Record) (inv : List Material) (i : Nat) :
    ∀ (js : List Nat) (rm d : List (Nat × ReagentMaterial)),
      rm ≠ [] → processRM rec inv i js rm = Except.ok d → d ≠ [] := by
  intro js
  induction js with
  | nil =>
    intro rm d hrm h
    rw [processRM] at h
    injection h with h
    exact h ▸ hrm
  | cons j js ih =>
    intro rm d hrm h
    rw [processRM] at h
    cases hvi : recGet? rec ("_raw_reagent_" ++ toString i ++ "_chemicals_" ++ toString j ++ "_inchikey") with
    | none =>
      rw [hvi] at h
      exact ih rm d hrm h
    | some vi =>
      rw [hvi] at h
      cases hva : recGet? rec ("_raw_reagent_" ++ toString i ++ "_chemicals_" ++ toString j ++ "_actual_amount") with
      | none =>
        rw [hva] at h
        exact ih rm d hrm h
      | some va =>
        rw [hva] at h
        cases hvu : recGet? rec ("_raw_reagent_" ++ toString i ++ "_chemicals_" ++ toString j ++ "_actual_amount_units") with
        | none =>
          rw [hvu] at h
          exact ih rm d hrm h
        | some vu =>
          rw [hvu] at h
          simp only [] at h
          by_cases hna : (vi.isna || va.isna || vu.isna) = true
          · rw [if_pos hna] at h
            exact ih rm d hrm h
          · rw [if_neg hna] at h
            cases hmat : Material.select_from vi inv with
            | error e =>
              rw [hmat] at h
              exact Except.noConfusion h
            | ok mat =>
              rw [hmat] at h
              simp only [bind, Except.bind] at h
              cases hrm2 : mkReagentMaterial mat va vu with
              | error e =>
                rw [hrm2] at h
                exact Except.noConfusion h
              | ok rmat =>
                rw [hrm2] at h
                exact ih _ d (dictInsertNat_ne_nil rm j rmat) h

theorem processRM_valid_ne_nil (rec : Record) (inv : List Material) (i : Nat) :
    ∀ (js : List Nat) (rm d : List (Nat × ReagentMaterial)),
      (∃ j ∈ js, validConstituent rec i j = true) →
      processRM rec inv i js rm = Except.ok d → d ≠ [] := by
  intro js
  induction js with
  | nil =>
    intro rm d hex _
    obtain ⟨j, hj, _⟩ := hex
    cases hj
  | cons j js ih =>
    intro rm d hex h
    rw [processRM] at h
    cases hvi : recGet? rec ("_raw_reagent_" ++ toString i ++ "_chemicals_" ++ toString j ++ "_inchikey") with
    | none =>
      rw [hvi] at h
      obtain ⟨j0, hj0, hval⟩ := hex
      rcases List.mem_cons.mp hj0 with h1 | h1
      · subst h1
        rw [validConstituent] at hval
        simp only [hvi] at hval
        exact absurd hval (by simp)
      · exact ih rm d ⟨j0, h1, hval⟩ h
    | some vi =>
      rw [hvi] at h
      cases hva : recGet? rec ("_raw_reagent_" ++ toString i ++ "_chemicals_" ++ toString j ++ "_actual_amount") with
      | none =>
        rw [hva] at h
        obtain ⟨j0, hj0, hval⟩ := hex
        rcases List.mem_cons.mp hj0 with h1 | h1
        · subst h1
          rw [validConstituent] at hval
          simp only [hvi, hva] at hval
          exact absurd hval (by simp)
        · exact ih rm d ⟨j0, h1, hval⟩ h
      | some va =>
        rw [hva] at h
        cases hvu : recGet? rec ("_raw_reagent_" ++ toString i ++ "_chemicals_" ++ toString j ++ "_actual_amount_units") with
        | none =>
          rw [hvu] at h
          obtain ⟨j0, hj0, hval⟩ := hex
          rcases List.mem_cons.mp hj0 with h1 | h1
          · subst h1
            rw [validConstituent] at hval
            simp only [hvi, hva, hvu] at hval
            exact absurd hval (by simp)
          · exact ih rm d ⟨j0, h1, hval⟩ h
        | some vu =>
          rw [hvu] at h
          simp only [] at h
          by_cases hna : (vi.isna || va.isna || vu.isna) = true
          · rw [if_pos hna] at h
            obtain ⟨j0, hj0, hval⟩ := hex
            rcases List.mem_cons.mp hj0 with h1 | h1
            · subst h1
              rw [validConstituent] at hval
              simp only [hvi, hva, hvu] at hval
              rw [hna] at hval
              exact absurd hval (by simp)
            · exact ih rm d ⟨j0, h1, hval⟩ h
          · rw [if_neg hna] at h
            cases hmat : Material.select_from vi inv with
            | error e =>
              rw [hmat] at h
              exact Except.noConfusion h
            | ok mat =>
              rw [hmat] at h
              simp only [bind, Except.bind] at h
              cases hrm2 : mkReagentMaterial mat va vu with
              | error e =>
                rw [hrm2] at h
                exact Except.noConfusion h
              | ok rmat =>
                rw [hrm2] at h
                exact processRM_preserve_ne_nil rec inv i js _ d
                  (dictInsertNat_ne_nil rm j rmat) h

theorem bind_exists_error {e0 a0 b0 : Type} (P : Except e0 a0) (f : a0 → Except e0 b0)
    (h : ∀ a, P = Except.ok a → ∃ e, f a = Except.error e) :
    ∃ e, (P >>= f) = Except.error e := by
  cases hP : P with
  | error e => exact ⟨e, rfl⟩
  | ok a =>
    obtain ⟨e, he⟩ := h a hP
    exact ⟨e, he⟩

theorem processSlot_errors (rec : Record) (inv : List Material) (i : Nat)
    (hacc : acceptableSlot rec i = true) :
    ∀ d, ∃ e, processSlot rec inv d i = Except.error e := by
  intro d
  rw [acceptableSlot, Bool.and_eq_true] at hacc
  obtain ⟨hvol, hexb⟩ := hacc
  obtain ⟨j, hj, hval⟩ := List.any_eq_true.mp hexb
  rw [slotVolumeOk] at hvol
  rw [processSlot]
  cases hv : recGet? rec ("_raw_reagent_" ++ toString i ++ "_volume") with
  | none =>
    rw [hv] at hvol
    exact absurd hvol (by simp)
  | some vvol =>
    rw [hv] at hvol
    cases vvol with
    | str s => exact absurd hvol (by simp)
    | na => exact absurd hvol (by simp)
    | num vol =>
      have hgt : (1e-6 : ℚ) < vol := of_decide_eq_true hvol
      simp only [Value.isna, Bool.false_eq_true, if_false]
      rw [if_neg (not_le.mpr hgt)]
      have hcont : ∀ (P : Except Fatal (Option (ℚ × Value)))
          (f : Option (ℚ × Value) → Except Fatal (List (Nat × Reagent)))
          (hf : ∀ op, f op =
            (processRM rec inv i (List.range 10) [] >>= fun rm_dict =>
              if rm_dict = [] then pure d
              else
                if callAccepts reagent_init_params get_reagent_table_call_kwargs then
                  pure (dictInsertNat d i
                    { reagent_material_table := rm_dict, volume_added := vol * 1e-6 })
                else throw (Fatal.typeError
                  "Reagent.__init__() got an unexpected keyword argument: volume_prepare"))),
          ∃ e, (P >>= f) = Except.error e := by
        intro P f hf
        apply bind_exists_error
        intro op _
        rw [hf op]
        apply bind_exists_error
        intro rm_dict hrm
        have hne : rm_dict ≠ [] :=
          processRM_valid_ne_nil rec inv i (List.range 10) [] rm_dict ⟨j, hj, hval⟩ hrm
        rw [if_neg hne]
        rw [if_neg (show ¬ callAccepts reagent_init_params get_reagent_table_call_kwargs = true by decide)]
        exact ⟨_, rfl⟩
      split
      · split
        · exact hcont _ _ (fun op => rfl)
        · split
          · exact ⟨_, rfl⟩
          · exact hcont _ _ (fun op => rfl)
          · split
            · exact hcont _ _ (fun op => rfl)
            · exact hcont _ _ (fun op => rfl)
      · exact hcont _ _ (fun op => rfl)

theorem getReagentTableGo_errors (rec : Record) (inv : List Material) (i : Nat)
    (herr : ∀ d, ∃ e, processSlot rec inv d i = Except.error e) :
    ∀ (slots : List Nat), i ∈ slots →
      ∀ d0, ∃ e, getReagentTableGo rec inv slots d0 = Except.error e := by
  intro slots
  induction slots with
  | nil => intro h; cases h
  | cons a as ih =>
    intro hmem d0
    rw [getReagentTableGo]
    cases hps : processSlot rec inv d0 a with
    | error e => exact ⟨e, rfl⟩
    | ok d2 =>
      rcases List.mem_cons.mp hmem with h1 | h1
      · subst h1
        obtain ⟨e, he⟩ := herr d0
        rw [he] at hps
        exact Except.noConfusion hps
      · exact ih h1 d2

theorem get_reagent_table_errors (rr : Record) (inv : List Material)
    (h : hasAcceptableSlot rr = true) :
    ∃ e, get_reagent_table rr inv = Except.error e := by
  rw [hasAcceptableSlot] at h
  obtain ⟨i, hi, hacc⟩ := List.any_eq_true.mp h
  exact getReagentTableGo_errors rr inv i (processSlot_errors rr inv i hacc)
    (List.range 10) hi []

/-- C2: a record with an acceptable reagent slot — the dispensed-volume
check passes and at least one constituent is fully populated — makes
`record_to_reaction` fail with a fatal (non-`ReactionParserError`) error:
`get_reagent_table` calls `Reagent(...)` with the `volume_prepare` keyword,
which `Reagent.__init__` does not accept (`TypeError`), or dies earlier in
the same slot (inventory lookup / unit assertion), so the branch that
returns a `Reaction` containing any reagent is unreachable, and
`collect_reactions` — which catches only `ReactionParserError` — aborts the
whole batch on such a record. -/
theorem volume_prepare_typeerror (record : Record) (inventory : List Material)
    (keys : List String) (iao : Bool) (subs : Subrecords)
    (hsubs : get_subrecords record keys = Except.ok subs)
    (hslot : hasAcceptableSlot subs.reagent_record = true) :
    (∃ e : Fatal, record_to_reaction record inventory keys iao =
        Except.error (RTRErr.fatal e)) ∧
    (∀ post, ∃ e : Fatal,
      collect_reactions inventory keys iao (record :: post) = Except.error e) := by
  have hmain : ∃ e : Fatal, record_to_reaction record inventory keys iao =
      Except.error (RTRErr.fatal e) := by
    rw [record_to_reaction]
    cases hn : recGet? record "name" with
    | none => exact ⟨Fatal.keyError "name", rfl⟩
    | some nv =>
      simp only [bind, Except.bind, pure, Except.pure]
      rw [hsubs]
      simp only [Except.mapError, bind, Except.bind]
      cases hb : checkBijective (get_category_x_to_inchikey subs.inchikey_category_record) with
      | error e => exact ⟨e, rfl⟩
      | ok u =>
        simp only [Except.mapError, bind, Except.bind]
        obtain ⟨e, he⟩ := get_reagent_table_errors subs.reagent_record inventory hslot
        rw [he]
        exact ⟨e, rfl⟩
  refine ⟨hmain, ?_⟩
  intro post
  obtain ⟨e, he⟩ := hmain
  refine ⟨e, ?_⟩
  rw [collect_reactions, he]

/-- C2 witness: on the concrete record `cexRec2` (acceptable slot 0),
`record_to_reaction` fails fatally and `collect_reactions` aborts the batch. -/
theorem volume_prepare_typeerror_witness :
    (∃ e : Fatal, record_to_reaction cexRec2 [cex_mat_solv] cexKeys2 false =
        Except.error (RTRErr.fatal e)) ∧
    (∀ post, ∃ e : Fatal,
      collect_reactions [cex_mat_solv] cexKeys2 false (cexRec2 :: post) = Except.error e) :=
  volume_prepare_typeerror cexRec2 [cex_mat_solv] cexKeys2 false cexSubs2
    (by decide) (by decide)

/-- C4 (amended): `collect_reactions` is record-scoped exactly for
`ReactionParserError`: a record whose parse fails with a parser error is
dropped and the batch continues with the remaining records, while a record
whose parse fails with any other (fatal) error aborts the whole batch. -/
theorem collect_reactions_scope (inv : List Material) (keys : List String)
    (iao : Bool) (r : Record) (post : List Record) :
    (∀ m, record_to_reaction r inv keys iao = Except.error (RTRErr.parser m) →
      collect_reactions inv keys iao (r :: post) =
        collect_reactions inv keys iao post) ∧
    (∀ e, record_to_reaction r inv keys iao = Except.error (RTRErr.fatal e) →
      collect_reactions inv keys iao (r :: post) = Except.error e) := by
  constructor
  · intro m h
    rw [collect_reactions, h]
  · intro e h
    rw [collect_reactions, h]

/-- C4 witness: the total-volume failure of `cexRec4` is dropped and the
batch continues; the missing-expver failure of `cexRec4b` aborts the
batch. -/
theorem collect_reactions_scope_witness :
    (collect_reactions [] [] false [cexRec4, cexRec4b] =
      collect_reactions [] [] false [cexRec4b]) ∧
    (collect_reactions [] [] false [cexRec4b] =
      Except.error (Fatal.keyError "_raw_expver")) :=
  ⟨(collect_reactions_scope [] [] false cexRec4 [cexRec4b]).1
      "invalid total volume: 0" (by decide),
   (collect_reactions_scope [] [] false cexRec4b []).2
      (Fatal.keyError "_raw_expver") (by decide)⟩

/-- C4 counterexample: two spec violations on concrete records.  The
total-volume parse error message for `cexRec4` does not carry the reaction
identifier "R1"; and the missing protocol version in `cexRec4b` raises an
uncaught `KeyError` (not a record-scoped parse error), so `collect_reactions`
aborts the surrounding batch — the following record is never parsed. -/
theorem parser_error_scope_cex :
    record_to_reaction cexRec4 [] [] false =
      Except.error (RTRErr.parser "invalid total volume: 0") ∧
    strContainsSub "invalid total volume: 0" "R1" = false ∧
    recGet? cexRec4 "name" = some (Value.str "R1") ∧
    record_to_reaction cexRec4b [] [] false =
      Except.error (RTRErr.fatal (Fatal.keyError "_raw_expver")) ∧
    collect_reactions [] [] false [cexRec4b, cexRec4] =
      Except.error (Fatal.keyError "_raw_expver") :=
  ⟨by decide, by decide, by decide, by decide, by decide⟩

theorem wf3_fingerprint_char (r : Reaction) (w : WF3Data)
    (h : WF3Data.from_reaction r = Except.ok w) :
    w.fingerprint = String.intercalate "%"
      [toString w.organic.length, toString w.inorganic.length,
       toString w.solvent.length, toString w.acid.length] := by
  rw [WF3Data.from_reaction] at h
  obtain ⟨u1, _, h⟩ := except_bind_ok h
  obtain ⟨anti_i, _, h⟩ := except_bind_ok h
  obtain ⟨ra, _, h⟩ := except_bind_ok h
  obtain ⟨rma, _, h⟩ := except_bind_ok h
  obtain ⟨mmolT, _, h⟩ := except_bind_ok h
  obtain ⟨reagT, _, h⟩ := except_bind_ok h
  obtain ⟨u2, _, h⟩ := except_bind_ok h
  obtain ⟨u3, _, h⟩ := except_bind_ok h
  obtain ⟨mmolT2, _, h⟩ := except_bind_ok h
  obtain ⟨org, _, h⟩ := except_bind_ok h
  obtain ⟨inorg, _, h⟩ := except_bind_ok h
  obtain ⟨solv, _, h⟩ := except_bind_ok h
  obtain ⟨aci, _, h⟩ := except_bind_ok h
  cases h
  rfl

/-- C9: the fingerprint emitted by `WF3Data.from_reaction` is the "%"-join, in
the fixed category order organic, inorganic, solvent, acid, of the
cardinality of each category's molarity table after the antisolvent's own
identifier was removed from its category; consequently any two reactions
whose conversions succeed with identical per-category cardinalities get
identical fingerprints, regardless of the concrete chemicals, concentrations,
time, temperature, or outcome. -/
theorem wf3_fingerprint_stable (r1 r2 : Reaction) (w1 w2 : WF3Data)
    (h1 : WF3Data.from_reaction r1 = Except.ok w1)
    (h2 : WF3Data.from_reaction r2 = Except.ok w2) :
    (w1.fingerprint = String.intercalate "%"
      [toString w1.organic.length, toString w1.inorganic.length,
       toString w1.solvent.length, toString w1.acid.length]) ∧
    (w1.organic.length = w2.organic.length →
     w1.inorganic.length = w2.inorganic.length →
     w1.solvent.length = w2.solvent.length →
     w1.acid.length = w2.acid.length →
     w1.fingerprint = w2.fingerprint) := by
  refine ⟨wf3_fingerprint_char r1 w1 h1, ?_⟩
  intro e1 e2 e3 e4
  rw [wf3_fingerprint_char r1 w1 h1, wf3_fingerprint_char r2 w2 h2, e1, e2, e3, e4]

/-- C9 witness: `cexR9a` and `cexR9b` differ in chemicals, concentrations,
volumes, time, temperature and outcome, yet share the fingerprint. -/
theorem wf3_fingerprint_stable_witness :
    (cexW9a.fingerprint = String.intercalate "%"
      [toString cexW9a.organic.length, toString cexW9a.inorganic.length,
       toString cexW9a.solvent.length, toString cexW9a.acid.length]) ∧
    cexW9a.fingerprint = cexW9b.fingerprint :=
  ⟨(wf3_fingerprint_stable cexR9a cexR9b cexW9a cexW9b (by decide) (by decide)).1,
   (wf3_fingerprint_stable cexR9a cexR9b cexW9a cexW9b (by decide) (by decide)).2
     (by decide) (by decide) (by decide) (by decide)⟩

theorem dictInsert_keys_nodup (d : List (String × α)) (k : String) (v : α)
    (h : (d.map Prod.fst).Nodup) : ((dictInsert d k v).map Prod.fst).Nodup := by
  by_cases hany : d.any (fun p => p.1 == k) = true
  · rw [dictInsert, if_pos hany]
    have : (d.map (fun p => if p.1 == k then (k, v) else p)).map Prod.fst =
        d.map Prod.fst := by
      rw [List.map_map]
      apply List.map_congr_left
      intro p _
      by_cases hp : (p.1 == k) = true
      · simp only [Function.comp, hp, if_pos]
        exact (eq_of_beq hp).symm
      · simp only [Function.comp, hp]
        rw [if_neg (by simp [hp])]
    rw [this]
    exact h
  · rw [dictInsert, if_neg hany]
    rw [List.map_append]
    refine List.Nodup.append h (by simp) ?_
    intro a ha hb
    simp only [List.map_cons, List.map_nil, List.mem_singleton] at hb
    subst hb
    simp only [List.mem_map] at ha
    obtain ⟨p, hp, hpa⟩ := ha
    rw [List.any_eq_true] at hany
    exact hany ⟨p, hp, by simp [hpa]⟩

theorem molarityTableGo_nodup (r : Reagent) :
    ∀ (rmt : List (Nat × ReagentMaterial)) (d mt : List (String × ℚ)),
      (d.map Prod.fst).Nodup → molarityTableGo r rmt d = Except.ok mt →
      (mt.map Prod.fst).Nodup := by
  intro rmt
  induction rmt with
  | nil =>
    intro d mt hd h
    rw [molarityTableGo] at h
    injection h with h
    exact h ▸ hd
  | cons p rest ih =>
    intro d mt hd h
    rw [molarityTableGo] at h
    obtain ⟨q, hq, h⟩ := except_bind_ok h
    obtain ⟨V, hV, h⟩ := except_bind_ok h
    obtain ⟨m, hm, h⟩ := except_bind_ok h
    exact ih _ mt (dictInsert_keys_nodup d _ m hd) h

theorem molarity_tableE_nodup (rr : Reagent) (rrmt : List (String × ℚ))
    (h : rr.molarity_tableE = Except.ok rrmt) : (rrmt.map Prod.fst).Nodup := by
  rw [Reagent.molarity_tableE] at h
  exact molarityTableGo_nodup _ _ [] rrmt (by simp) h

theorem dictGet?_eq_none_of_not_mem (d : List (String × α)) (k : String)
    (h : k ∉ d.map Prod.fst) : dictGet? d k = none := by
  rw [dictGet?]
  have hf : List.find? (fun p => p.1 == k) d = none := by
    rw [List.find?_eq_none]
    intro p hp
    simp only [beq_iff_eq]
    intro hc
    exact h (List.mem_map.mpr ⟨p, hp, hc⟩)
  rw [hf]
  rfl

theorem mtAddGo_spec (V va : ℚ) :
    ∀ (rrmt mt mt2 : List (String × ℚ)),
      (rrmt.map Prod.fst).Nodup →
      mtAddGo V va rrmt mt = Except.ok mt2 →
      ∀ ik, dictGet? mt2 ik =
        (match dictGet? rrmt ik with
        | some m => some ((dictGet? mt ik).getD 0 + m * va / V)
        | none => dictGet? mt ik) := by
  intro rrmt
  induction rrmt with
  | nil =>
    intro mt mt2 _ h ik
    rw [mtAddGo] at h
    injection h with h
    subst h
    rfl
  | cons p rest ih =>
    intro mt mt2 hnd h ik
    obtain ⟨i, m⟩ := p
    rw [mtAddGo] at h
    cases hdiv : divE (m * va) V with
    | error e =>
      rw [hdiv] at h
      exact Except.noConfusion h
    | ok c =>
      have hc : c = m * va / V := by
        rw [divE] at hdiv
        by_cases hV : V = 0
        · rw [if_pos hV] at hdiv
          exact Except.noConfusion hdiv
        · rw [if_neg hV] at hdiv
          injection hdiv with hdiv
          exact hdiv.symm
      subst hc
      rw [hdiv] at h
      simp only [bind, Except.bind] at h
      have hnd' : (rest.map Prod.fst).Nodup := (List.nodup_cons.mp hnd).2
      have hrest_i : dictGet? rest i = none :=
        dictGet?_eq_none_of_not_mem rest i (List.nodup_cons.mp hnd).1
      by_cases hik : i = ik
      · subst hik
        have hhead : dictGet? ((i, m) :: rest) i = some m := by
          rw [dictGet?]
          simp [List.find?]
        rw [hhead]
        cases hmt : dictGet? mt i with
        | some v0 =>
          rw [hmt] at h
          have h2 := ih _ mt2 hnd' h i
          rw [hrest_i] at h2
          rw [h2, dictGet?_dictInsert_same]
          rfl
        | none =>
          rw [hmt] at h
          have h2 := ih _ mt2 hnd' h i
          rw [hrest_i] at h2
          rw [h2, dictGet?_dictInsert_same]
          simp
      · have hhead : dictGet? ((i, m) :: rest) ik = dictGet? rest ik := by
          rw [dictGet?, dictGet?]
          have : (i == ik) = false := by simp [hik]
          simp [List.find?, this]
        rw [hhead]
        cases hmt : dictGet? mt i with
        | some v0 =>
          rw [hmt] at h
          have h2 := ih _ mt2 hnd' h ik
          rw [dictGet?_dictInsert_other mt i ik _ (fun hc => hik hc.symm)] at h2
          exact h2
        | none =>
          rw [hmt] at h
          have h2 := ih _ mt2 hnd' h ik
          rw [dictGet?_dictInsert_other mt i ik _ (fun hc => hik hc.symm)] at h2
          exact h2

theorem mtGo_spec (V : ℚ) :
    ∀ (rs : List (Nat × Reagent)) (mt mt2 : List (String × ℚ)),
      mtGo V rs mt = Except.ok mt2 →
      ∀ ik,
        dictGet? mt2 ik =
          (match dictGet? mt ik with
          | some v0 => some (v0 + (((rs.filter (fun p => !isAntiB p.2)).map
              (fun p => alphaContrib V p.2 ik)).sum))
          | none =>
            if (rs.filter (fun p => !isAntiB p.2)).any
                (fun p => (reagentRow p.2 ik).isSome) then
              some (((rs.filter (fun p => !isAntiB p.2)).map
                (fun p => alphaContrib V p.2 ik)).sum)
            else none) := by
  intro rs
  induction rs with
  | nil =>
    intro mt mt2 h ik
    rw [mtGo] at h
    injection h with h
    subst h
    cases hmt : dictGet? mt ik <;> simp
  | cons pr rest ih =>
    intro mt mt2 h ik
    obtain ⟨n, rr⟩ := pr
    rw [mtGo] at h
    obtain ⟨b, hb, h⟩ := except_bind_ok h
    have hAb : isAntiB rr = b := by rw [isAntiB, hb]
    cases b with
    | true =>
      have h' : mtGo V rest mt = Except.ok mt2 := h
      have h2 := ih mt mt2 h' ik
      have hfcT : (((n, rr) :: rest).filter (fun p => !isAntiB p.2)) =
          rest.filter (fun p => !isAntiB p.2) := by
        simp [List.filter_cons, hAb]
      rw [h2, hfcT]
    | false =>
      have h' : (do
          let rrmt ← Reagent.molarity_tableE rr
          let mt' ← mtAddGo V rr.volume_added rrmt mt
          mtGo V rest mt') = Except.ok mt2 := h
      obtain ⟨rrmt, hmtE, h'⟩ := except_bind_ok h'
      obtain ⟨mt', hadd, h'⟩ := except_bind_ok h'
      have hnd := molarity_tableE_nodup rr rrmt hmtE
      have haddspec := mtAddGo_spec V rr.volume_added rrmt mt mt' hnd hadd ik
      have h2 := ih mt' mt2 h' ik
      have hrow : reagentRow rr ik = dictGet? rrmt ik := by rw [reagentRow, hmtE]
      have hfc : (((n, rr) :: rest).filter (fun p => !isAntiB p.2)) =
          (n, rr) :: rest.filter (fun p => !isAntiB p.2) := by
        simp [List.filter_cons, hAb]
      rw [hfc]
      cases hrk : dictGet? rrmt ik with
      | some m =>
        rw [hrk] at haddspec
        have hcontrib : alphaContrib V rr ik = m * rr.volume_added / V := by
          rw [alphaContrib, hrow, hrk]
        have hisSome : (reagentRow rr ik).isSome = true := by
          rw [hrow, hrk]
          rfl
        rw [h2, haddspec]
        cases hmt : dictGet? mt ik with
        | some v0 => simp [hcontrib, add_assoc]
        | none => simp [hcontrib, hisSome, add_assoc]
      | none =>
        rw [hrk] at haddspec
        have hcontrib : alphaContrib V rr ik = 0 := by
          rw [alphaContrib, hrow, hrk]
        have hisSome : (reagentRow rr ik).isSome = false := by
          rw [hrow, hrk]
          rfl
        rw [h2, haddspec]
        cases hmt : dictGet? mt ik with
        | some v0 => simp [hcontrib]
        | none =>
          have hX : (((n, rr) :: rest.filter (fun p => !isAntiB p.2)).any
              (fun p => (reagentRow p.2 ik).isSome)) =
              ((rest.filter (fun p => !isAntiB p.2)).any
              (fun p => (reagentRow p.2 ik).isSome)) := by
            rw [List.any_cons]
            show ((reagentRow rr ik).isSome || _) = _
            rw [hisSome, Bool.false_or]
          rw [hX]
          simp [hcontrib]

theorem volAlphaGo_spec :
    ∀ (rs : List (Nat × Reagent)) (acc V : ℚ),
      volAlphaGo rs acc = Except.ok V →
      V = acc + ((rs.filter (fun p => !isAntiB p.2)).map
        (fun p => p.2.volume_added)).sum := by
  intro rs
  induction rs with
  | nil =>
    intro acc V h
    rw [volAlphaGo] at h
    injection h with h
    simp [h.symm]
  | cons pr rest ih =>
    intro acc V h
    obtain ⟨n, rr⟩ := pr
    rw [volAlphaGo] at h
    obtain ⟨b, hb, h⟩ := except_bind_ok h
    have hAb : isAntiB rr = b := by rw [isAntiB, hb]
    cases b with
    | true =>
      have h' : volAlphaGo rest acc = Except.ok V := h
      rw [ih acc V h']
      simp [List.filter_cons, hAb]
    | false =>
      have h' : volAlphaGo rest (acc + rr.volume_added) = Except.ok V := h
      rw [ih _ V h']
      simp [List.filter_cons, hAb, add_assoc]

theorem nonAntiReagents_spec :
    ∀ (rs : List (Nat × Reagent)) (out : List Reagent),
      nonAntiReagents rs = Except.ok out →
      out = (rs.filter (fun p => !isAntiB p.2)).map Prod.snd := by
  intro rs
  induction rs with
  | nil =>
    intro out h
    rw [nonAntiReagents] at h
    injection h with h
    simp [h.symm]
  | cons pr rest ih =>
    intro out h
    obtain ⟨n, rr⟩ := pr
    rw [nonAntiReagents] at h
    obtain ⟨b, hb, h⟩ := except_bind_ok h
    obtain ⟨os, hos, h⟩ := except_bind_ok h
    have hAb : isAntiB rr = b := by rw [isAntiB, hb]
    cases b with
    | true =>
      have h' : (pure os : Except Fatal (List Reagent)) = Except.ok out := h
      cases h'
      rw [ih _ hos]
      simp [List.filter_cons, hAb]
    | false =>
      have h' : (pure (rr :: os) : Except Fatal (List Reagent)) = Except.ok out := h
      cases h'
      rw [ih _ hos]
      simp [List.filter_cons, hAb]

theorem listMapE_getCatE_spec (mtq : List (String × ℚ)) :
    ∀ (l : List String) (t : List ℚ),
      listMapE (fun i => getCatE mtq i) l = Except.ok t →
      t = l.map (fun ik => (dictGet? mtq ik).getD 0) ∧
      ∀ ik ∈ l, (dictGet? mtq ik).isSome = true := by
  intro l
  induction l with
  | nil =>
    intro t h
    rw [listMapE] at h
    injection h with h
    subst h
    exact ⟨rfl, by simp⟩
  | cons x xs ih =>
    intro t h
    rw [listMapE] at h
    obtain ⟨y, hy, h⟩ := except_bind_ok h
    obtain ⟨ys, hys, h⟩ := except_bind_ok h
    cases h
    have hget : dictGet? mtq x = some y := by
      rw [getCatE] at hy
      cases hg : dictGet? mtq x with
      | some v =>
        rw [hg] at hy
        injection hy with hy
        rw [hy]
      | none =>
        rw [hg] at hy
        exact Except.noConfusion hy
    obtain ⟨ht, hall⟩ := ih ys hys
    refine ⟨?_, ?_⟩
    · rw [List.map_cons, ← ht, hget]
      rfl
    · intro ik hik
      rcases List.mem_cons.mp hik with h1 | h1
      · subst h1
        rw [hget]
        rfl
      · exact hall ik h1

theorem listMapE_rows_spec (inchikeys : List String) :
    ∀ (reagents : List Reagent) (rows : List (List ℚ)),
      listMapE (fun rr => do
          let rrmt ← Reagent.molarity_tableE rr
          pure (ssRow rrmt inchikeys)) reagents = Except.ok rows →
      rows = reagents.map (fun rr =>
        inchikeys.map (fun ik => (reagentRow rr ik).getD 0)) := by
  intro reagents
  induction reagents with
  | nil =>
    intro rows h
    rw [listMapE] at h
    injection h with h
    simp [h.symm]
  | cons rr rest ih =>
    intro rows h
    rw [listMapE] at h
    obtain ⟨y, hy, h⟩ := except_bind_ok h
    obtain ⟨ys, hys, h⟩ := except_bind_ok h
    cases h
    obtain ⟨rrmt, hmtE, hy⟩ := except_bind_ok hy
    cases hy
    rw [List.map_cons, ← ih ys hys]
    have hrow : ssRow rrmt inchikeys =
        inchikeys.map (fun ik => (reagentRow rr ik).getD 0) := by
      rw [ssRow]
      apply List.map_congr_left
      intro ik _
      have hrr : reagentRow rr ik = dictGet? rrmt ik := by
        rw [reagentRow, hmtE]
      rw [hrr]
      cases hr : dictGet? rrmt ik <;> rfl
    rw [hrow]

theorem sum_div_list (l : List ℚ) (V : ℚ) :
    (l.map (fun x => x / V)).sum = l.sum / V := by
  induction l with
  | nil => simp
  | cons x xs ih => simp [ih, add_div]

theorem mem_zip_self (a : List ℚ) : ∀ p ∈ List.zip a a, p.1 = p.2 := by
  induction a with
  | nil =>
    intro p hp
    cases hp
  | cons x xs ih =>
    intro p hp
    rw [List.zip_cons_cons] at hp
    rcases List.mem_cons.mp hp with h1 | h1
    · rw [h1]
    · exact ih p h1

theorem npAllclose_self (a : List ℚ) : npAllclose a a = true := by
  rw [npAllclose]
  simp only [beq_self_eq_true, Bool.true_and]
  rw [List.all_eq_true]
  intro p hp
  rw [mem_zip_self a p hp]
  simp only [decide_eq_true_eq, sub_self, abs_zero]
  have h1 : (0 : ℚ) ≤ 1e-5 * |p.2| :=
    mul_nonneg (by norm_num) (abs_nonneg _)
  have h2 : (0 : ℚ) < 1e-8 := by norm_num
  linarith

theorem alphaContrib_eq (V : ℚ) (rr : Reagent) (ik : String) :
    alphaContrib V rr ik = (reagentRow rr ik).getD 0 * rr.volume_added / V := by
  rw [alphaContrib]
  cases hr : reagentRow rr ik <;> simp

theorem getD_map_getElem (f : α → ℚ) (l : List α) (j : Nat) (hj : j < l.length) :
    (l.map f).getD j 0 = f (l.get ⟨j, hj⟩) := by
  rw [List.getD_eq_getElem?_getD, List.getElem?_map,
    List.getElem?_eq_getElem (by simpa using hj)]
  simp

theorem range_map_eq_map_get (l : List α) (F : Nat → β) (G : α → β)
    (h : ∀ (j : Nat) (hj : j < l.length), F j = G (l.get ⟨j, hj⟩)) :
    (List.range l.length).map F = l.map G := by
  apply List.ext_get
  · simp
  · intro j h1 h2
    rw [List.get_map, List.get_map, List.get_range]
    exact h j (by simpa using h2)

/-- C5 (amended): the forward check of `verify_convexhull.py` never consults
the WF3Data-derived molarities — its target is `get_reaction_molarity_table`,
itself the volume-weighted average of the reaction's own non-antisolvent
reagents' molarity tables — so whenever the checking parameters are
assembled successfully, `forward_check` compares that weighted average
against itself and passes. -/
theorem forward_check_vacuous (r : Reaction) (p : ForwardParams)
    (h : getForwardParams r = Except.ok p) :
    forward_check p = true := by
  rw [getForwardParams] at h
  obtain ⟨mt, hmt, h⟩ := except_bind_ok h
  obtain ⟨target, htarget, h⟩ := except_bind_ok h
  obtain ⟨reagents, hreag, h⟩ := except_bind_ok h
  obtain ⟨rows, hrows, h⟩ := except_bind_ok h
  cases h
  rw [get_reaction_molarity_table] at hmt
  obtain ⟨V, hV, hmt⟩ := except_bind_ok hmt
  have hVspec := volAlphaGo_spec r.reagent_table 0 V hV
  have hmtspec := mtGo_spec V r.reagent_table [] mt hmt
  obtain ⟨htv, hall⟩ := listMapE_getCatE_spec mt _ target htarget
  have hreagspec := nonAntiReagents_spec r.reagent_table reagents hreag
  have hrowspec := listMapE_rows_spec _ reagents rows hrows
  rw [forward_check]
  simp only []
  subst hrowspec
  subst hreagspec
  subst htv
  have hvols : ((((r.reagent_table.filter (fun p => !isAntiB p.2)).map
      Prod.snd).map (fun rr => rr.volume_added)).sum) = V := by
    rw [hVspec, zero_add, List.map_map]
    rfl
  rw [hvols]
  have hkey : ∀ (j : Nat)
      (hj : j < (sortByKey (fun s => s.toList) (mt.map Prod.fst)).length),
      ((List.zip
          (((r.reagent_table.filter (fun p => !isAntiB p.2)).map Prod.snd).map
            (fun rr => rr.volume_added))
          (((r.reagent_table.filter (fun p => !isAntiB p.2)).map Prod.snd).map
            (fun rr => (sortByKey (fun s => s.toList) (mt.map Prod.fst)).map
              (fun ik => (reagentRow rr ik).getD 0)))).map
        (fun q => q.1 * q.2.getD j 0)).sum / V =
      (dictGet? mt ((sortByKey (fun s => s.toList) (mt.map Prod.fst)).get
        ⟨j, hj⟩)).getD 0 := by
    intro j hj
    set iks := sortByKey (fun s => s.toList) (mt.map Prod.fst) with hiksdef
    set ik := iks.get ⟨j, hj⟩ with hikdef
    set nr := (r.reagent_table.filter (fun p => !isAntiB p.2)).map Prod.snd
      with hnrdef
    have hzip : List.zip (nr.map (fun rr => rr.volume_added))
        (nr.map (fun rr => iks.map (fun ik2 => (reagentRow rr ik2).getD 0))) =
        nr.map (fun rr => (rr.volume_added,
          iks.map (fun ik2 => (reagentRow rr ik2).getD 0))) := by
      rw [List.zip_map']
    rw [hzip, List.map_map]
    have hterm : ∀ rr ∈ nr,
        ((fun q => q.1 * q.2.getD j 0) ∘ (fun rr => (rr.volume_added,
          iks.map (fun ik2 => (reagentRow rr ik2).getD 0)))) rr =
        (reagentRow rr ik).getD 0 * rr.volume_added := by
      intro rr _
      simp only [Function.comp]
      rw [getD_map_getElem _ iks j hj, mul_comm]
    rw [List.map_congr_left hterm]
    have hik_mem : ik ∈ iks := by
      rw [hikdef]
      exact List.get_mem iks j hj
    have hsome := hall ik hik_mem
    have hmtik := hmtspec ik
    have hnone : dictGet? ([] : List (String × ℚ)) ik = none := rfl
    rw [hnone] at hmtik
    by_cases hc : ((r.reagent_table.filter (fun p => !isAntiB p.2)).any
        (fun p => (reagentRow p.2 ik).isSome)) = true
    · rw [if_pos hc] at hmtik
      rw [hmtik]
      simp only [Option.getD_some]
      have htot : ((r.reagent_table.filter (fun p => !isAntiB p.2)).map
          (fun p => alphaContrib V p.2 ik)).sum =
          (nr.map (fun rr => (reagentRow rr ik).getD 0 * rr.volume_added / V)).sum := by
        rw [hnrdef, List.map_map]
        apply congrArg
        apply List.map_congr_left
        intro p _
        simp only [Function.comp]
        rw [alphaContrib_eq]
      rw [htot]
      have hdiv : (nr.map (fun rr =>
          (reagentRow rr ik).getD 0 * rr.volume_added / V)).sum =
          (nr.map (fun rr =>
          (reagentRow rr ik).getD 0 * rr.volume_added)).sum / V := by
        rw [show (fun rr => (reagentRow rr ik).getD 0 * rr.volume_added / V) =
            (fun x => x / V) ∘ (fun rr =>
              (reagentRow rr ik).getD 0 * rr.volume_added) from rfl,
          ← List.map_map, sum_div_list]
      rw [hdiv]
    · rw [if_neg hc] at hmtik
      rw [hmtik] at hsome
      exact absurd hsome (by simp)
  have hfinal := range_map_eq_map_get
    (sortByKey (fun s => s.toList) (mt.map Prod.fst))
    (fun j => ((List.zip
        (((r.reagent_table.filter (fun p => !isAntiB p.2)).map Prod.snd).map
          (fun rr => rr.volume_added))
        (((r.reagent_table.filter (fun p => !isAntiB p.2)).map Prod.snd).map
          (fun rr => (sortByKey (fun s => s.toList) (mt.map Prod.fst)).map
            (fun ik => (reagentRow rr ik).getD 0)))).map
      (fun q => q.1 * q.2.getD j 0)).sum / V)
    (fun ik => (dictGet? mt ik).getD 0)
    hkey
  rw [hfinal]
  exact npAllclose_self _

/-- C5 witness: the forward check of the concrete reaction `cexR9a` passes. -/
theorem forward_check_vacuous_witness : forward_check cexP5 = true :=
  forward_check_vacuous cexR9a cexP5 (by decide)

/-- C5 counterexample: for `cexR9a`, the WF3Data-derived organic molarity is
10 mol/L while the value reconstructed from the reaction's own reagents is
5 mol/L — far outside any 1e-5 relative tolerance — yet `forward_check`
passes, because it never consults the WF3Data values. -/
theorem forward_check_not_wf3_cex :
    WF3Data.from_reaction cexR9a = Except.ok cexW9a ∧
    dictGet? cexW9a.organic "AAAAAAAAAAAAAA-UHFFFAOYSA-N" =
      some (Value.num 10) ∧
    getForwardParams cexR9a = Except.ok cexP5 ∧
    cexP5.target_molarity = [5] ∧
    ¬ (|(5 : ℚ) - 10| ≤ 1e-5 * |(10 : ℚ)|) ∧
    forward_check cexP5 = true :=
  ⟨by decide, by decide, by decide, by decide, by decide, by decide⟩
